import Mathlib

/-!
Verification development for the testgen change-aware function-extraction
pipeline.  The definitions below are a shallow embedding of the repository
source: the unified-diff parser (internal/git/diff.go), the Go syntax
analyzer (internal/parser/ast.go), and the reconciler / target builder
(internal/analyzer/integration.go) together with the configuration filter
(internal/config).  Go strings are modelled as Lean strings viewed as
character lists; the Go code indexes bytes, which coincides with characters
on the ASCII data this program processes.  Go maps that may be nil are
modelled as Option of an association list, and Go run-time panics are
modelled by functions returning none.
-/

namespace Testgen

set_option maxRecDepth 100000
set_option maxHeartbeats 2000000

/-! ## String helpers mirroring the Go standard library calls used by the code -/

/-- Character class of unicode.IsSpace restricted to the ASCII range,
as used by strings.TrimSpace. -/
def isGoSpace (c : Char) : Bool :=
  c = ' ' || c = '\t' || c = '\n' || c = '\r' || c = Char.ofNat 11 || c = Char.ofNat 12

/-- Drop characters satisfying p from both ends of a character list. -/
def trimChars (l : List Char) (p : Char → Bool) : List Char :=
  ((l.dropWhile p).reverse.dropWhile p).reverse

/-- strings.TrimSpace. -/
def goTrimSpace (s : String) : String := ⟨trimChars s.data isGoSpace⟩

/-- strings.Trim with an explicit cutset. -/
def goTrim (s : String) (cutset : List Char) : String :=
  ⟨trimChars s.data (fun c => cutset.contains c)⟩

/-- Does the first list start with the second one? -/
def listStarts : List Char → List Char → Bool
  | _, [] => true
  | [], _ :: _ => false
  | a :: as, b :: bs => a = b && listStarts as bs

/-- strings.HasPrefix. -/
def strStarts (s p : String) : Bool := listStarts s.data p.data

/-- strings.HasSuffix. -/
def strEnds (s p : String) : Bool := listStarts s.data.reverse p.data.reverse

/-- Index of the first occurrence of a character-list pattern, strings.Index. -/
def subIdx : List Char → List Char → Option Nat
  | _, [] => some 0
  | [], _ :: _ => none
  | a :: as, b :: bs =>
    if listStarts (a :: as) (b :: bs) then some 0
    else match subIdx as (b :: bs) with
      | some i => some (i + 1)
      | none => none

/-- strings.Index on strings. -/
def strIdx (s sub : String) : Option Nat := subIdx s.data sub.data

/-- strings.Contains. -/
def strHasSub (s sub : String) : Bool := (strIdx s sub).isSome

/-- Index of the last occurrence of a pattern (used to model a greedy
leading capture group in a regular expression). -/
def lastSubIdx (hay needle : List Char) : Option Nat :=
  (subIdx hay.reverse needle.reverse).map (fun i => hay.length - needle.length - i)

/-- Go slice s[n:] on strings (character level). -/
def strDrop (s : String) (n : Nat) : String := ⟨s.data.drop n⟩

/-- Go slice s[:n] on strings (character level). -/
def strTake (s : String) (n : Nat) : String := ⟨s.data.take n⟩

/-- Split a character list at newline characters, keeping empty segments. -/
def splitLinesAux : List Char → List Char → List (List Char)
  | [], acc => [acc.reverse]
  | c :: rest, acc =>
    if c = '\n' then acc.reverse :: splitLinesAux rest []
    else splitLinesAux rest (c :: acc)

/-- Drop one trailing carriage return, as bufio.ScanLines does. -/
def goDropCR (l : List Char) : List Char :=
  if l.getLast? = some '\r' then l.dropLast else l

/-- The sequence of lines produced by bufio.Scanner with ScanLines:
tokens are separated by newlines, a final newline produces no empty
final token, and a trailing carriage return is stripped from each token. -/
def scanLines (s : String) : List String :=
  match s.data with
  | [] => []
  | _ :: _ =>
    let parts := splitLinesAux s.data []
    let parts := if s.data.getLast? = some '\n' then parts.dropLast else parts
    parts.map (fun t => ⟨goDropCR t⟩)

/-! ## Diff data model (internal/git/diff.go) -/

/-- ChangeType: Added / Removed / Modified / Context. -/
inductive ChangeType where
  | added
  | removed
  | modified
  | context
deriving DecidableEq, Repr

/-- DiffChange: a single line of a hunk body. -/
structure DiffChange where
  type : ChangeType
  line : String
  lineNum : Nat
  function : String
deriving DecidableEq, Repr

/-- FileDiff: one file entry of a diff. -/
structure FileDiff where
  oldPath : String
  newPath : String
  changes : List DiffChange
  functions : List String
deriving DecidableEq, Repr

/-- DiffResult: the files of one parse invocation. -/
structure DiffResult where
  files : List FileDiff
deriving DecidableEq, Repr

/-- FileDiff.addFunctionIfModified: record a function name once. -/
def addFunctionIfModified (fd : FileDiff) (functionName : String) : FileDiff :=
  if functionName = "" then fd
  else if fd.functions.contains functionName then fd
  else { fd with functions := fd.functions ++ [functionName] }

/-- The receiver-skipping block of extractFunctionName: when the text
opens a parenthesis, drop everything through the first close-paren-space. -/
def stripRecv (l : String) : String :=
  if strStarts l "(" then
    match strIdx l ") " with
    | some i => goTrimSpace (strDrop l (i + 2))
    | none => l
  else l

/-- The optional change-marker strip at the head of extractFunctionName. -/
def stripMarker (l : String) : String :=
  if strStarts l "+" || strStarts l "-" || strStarts l " " then
    goTrimSpace (strDrop l 1)
  else l

/-- The final step of extractFunctionName: the trimmed text before the
parameter list, with stray punctuation removed. -/
def nameBeforeParen (l : String) : String :=
  match strIdx l "(" with
  | none => ""
  | some p => goTrim (goTrimSpace (strTake l p)) [' ', '\t', '*', '&', '[', ']']

/-- extractFunctionName from diff.go: strip an optional change marker,
require the func keyword, skip a parenthesized receiver, and take the text
before the parameter list.  The sequential reassignments of the Go local
are written as a composition of the three named steps above. -/
def extractFunctionName (line : String) : String :=
  if !strStarts (stripMarker (goTrimSpace line)) "func " then ""
  else
    nameBeforeParen
      (stripRecv (goTrimSpace (strDrop (stripMarker (goTrimSpace line)) 5)))

/-- parseDiffLine from diff.go: classify a body line by its marker,
stripping the marker; other lines are skipped (none).  The line number is
filled in by the caller. -/
def parseDiffLine (line : String) (currentFunction : String) : Option DiffChange :=
  match line.data with
  | [] => none
  | c :: rest =>
    if c = '+' then some ⟨.added, ⟨rest⟩, 0, currentFunction⟩
    else if c = '-' then some ⟨.removed, ⟨rest⟩, 0, currentFunction⟩
    else if c = ' ' then some ⟨.context, ⟨rest⟩, 0, currentFunction⟩
    else none

/-- Match of the anchored file-header pattern diff --git a/(.*) b/(.*).
The first capture group is greedy, so the old and new paths split at the
last occurrence of the b-path separator. -/
def fileHeaderMatch (line : String) : Option (String × String) :=
  if strStarts line "diff --git a/" then
    let rest := strDrop line 13
    match lastSubIdx rest.data [' ', 'b', '/'] with
    | some i => some (strTake rest i, strDrop rest (i + 3))
    | none => none
  else none

/-- Consume one or more digits, then an optional comma followed by any
number of digits, as the hunk-range fragment of the hunk-header pattern. -/
def numPart : List Char → Option (List Char)
  | c :: rest =>
    if c.isDigit then
      let rest := rest.dropWhile Char.isDigit
      match rest with
      | ',' :: r => some (r.dropWhile Char.isDigit)
      | r => some r
    else none
  | [] => none

/-- Match of the anchored hunk-header pattern, returning its trailing
context capture group (group 5). -/
def hunkHeaderMatch (line : String) : Option String :=
  match line.data with
  | '@' :: '@' :: ' ' :: '-' :: r =>
    match numPart r with
    | none => none
    | some r =>
      match r with
      | ' ' :: '+' :: r =>
        match numPart r with
        | none => none
        | some r =>
          match r with
          | ' ' :: '@' :: '@' :: r =>
            match r with
            | ' ' :: r2 => some ⟨r2⟩
            | r2 => some ⟨r2⟩
          | _ => none
      | _ => none
  | _ => none

/-- The mutable scan state of parseDiff. -/
structure ParseState where
  files : List FileDiff
  currentFile : Option FileDiff
  currentFunction : String
  lineNum : Nat
deriving DecidableEq, Repr

/-- One iteration of the parseDiff scan loop on a single line.  The two
nested conditionals of the Go hunk-header branch are written as one
boolean conjunction, and the trailing line-counter increment of the
content branch is distributed into its cases. -/
def stepLine (st : ParseState) (line : String) : ParseState :=
  match fileHeaderMatch line with
  | some (op, np) =>
    { files := st.files ++ (match st.currentFile with | some f => [f] | none => [])
      currentFile := some ⟨op, np, [], []⟩
      currentFunction := ""
      lineNum := 0 }
  | none =>
    match hunkHeaderMatch line with
    | some ctx =>
      if ctx ≠ "" ∧ extractFunctionName ctx ≠ "" then
        { st with
            currentFunction := extractFunctionName ctx
            currentFile := st.currentFile.map
              (fun f => addFunctionIfModified f (extractFunctionName ctx))
            lineNum := 0 }
      else { st with lineNum := 0 }
    | none =>
      if strStarts line "index " || strStarts line "--- " || strStarts line "+++ " then st
      else
        match st.currentFile with
        | none => st
        | some f =>
          match parseDiffLine line st.currentFunction with
          | none => { st with lineNum := st.lineNum + 1 }
          | some ch =>
            if (ch.type = ChangeType.added || ch.type = ChangeType.context) &&
                strHasSub ch.line "func " then
              if extractFunctionName ch.line ≠ "" then
                { st with
                    currentFile := some (addFunctionIfModified
                      { f with changes := f.changes ++ [{ ch with lineNum := st.lineNum }] }
                      (extractFunctionName ch.line))
                    currentFunction := extractFunctionName ch.line
                    lineNum := st.lineNum + 1 }
              else
                { st with
                    currentFile := some
                      { f with changes := f.changes ++ [{ ch with lineNum := st.lineNum }] }
                    lineNum := st.lineNum + 1 }
            else
              { st with
                  currentFile := some
                    { f with changes := f.changes ++ [{ ch with lineNum := st.lineNum }] }
                  lineNum := st.lineNum + 1 }

/-- Closing the scan: the last open file, if any, is appended. -/
def flushState (st : ParseState) : DiffResult :=
  ⟨st.files ++ (match st.currentFile with | some f => [f] | none => [])⟩

/-- parseDiff scan over all input lines, flushing the last open file. -/
def parseDiffCore (diffText : String) : DiffResult :=
  flushState ((scanLines diffText).foldl stepLine ⟨[], none, "", 0⟩)

/-- parseDiff: the Go function returns a result and an error, and its only
return statement yields a nil error. -/
def parseDiff (diffText : String) : Except String DiffResult :=
  Except.ok (parseDiffCore diffText)

/-- ParseDiff, the exported variant. -/
def ParseDiff (diffText : String) : Except String DiffResult := parseDiff diffText

/-- FileDiff.GetModifiedFunctions: names of functions owning at least one
added or removed line.  The Go code collects them in a map and emits them
in unspecified order; the model emits them in first-occurrence order. -/
def GetModifiedFunctions (fd : FileDiff) : List String :=
  fd.changes.foldl
    (fun acc ch =>
      if (ch.type = ChangeType.added || ch.type = ChangeType.removed) && ch.function ≠ "" &&
          !acc.contains ch.function
      then acc ++ [ch.function] else acc)
    []

/-- The Go-file predicate common to both entry modes. -/
def goFileName (p : String) : Bool := strEnds p ".go" && !strEnds p "_test.go"

/-- DiffResult.FilterGoFiles. -/
def FilterGoFiles (dr : DiffResult) : DiffResult :=
  ⟨dr.files.filter (fun f => goFileName f.newPath)⟩

/-! ## Concrete inputs: Scenario A of the spec, the diff exercised by the
repository test TestParseDiff -/

/-- The Scenario A diff: one hunk adding two lines inside ValidateUser and
one hunk (context function CreateUser) adding the new function DeleteUser. -/
def scenarioA : String :=
  "diff --git a/user.go b/user.go\n" ++
  "index 1234567..abcdefg 100644\n" ++
  "--- a/user.go\n" ++
  "+++ b/user.go\n" ++
  "@@ -10,6 +10,12 @@ func ValidateUser(user *User) error \x7b\n" ++
  "     if user.Email == \"\" \x7b\n" ++
  "         return errors.New(\"email required\")\n" ++
  "     \x7d\n" ++
  "+    if !strings.Contains(user.Email, \"@\") \x7b\n" ++
  "+        return errors.New(\"invalid email format\")\n" ++
  "+    \x7d\n" ++
  "     return nil\n" ++
  " \x7d\n" ++
  " \n" ++
  "@@ -25,3 +31,7 @@ func CreateUser(name, email string) *User \x7b\n" ++
  "         Email: email,\n" ++
  "     \x7d\n" ++
  " \x7d\n" ++
  "+\n" ++
  "+func DeleteUser(id int) error \x7b\n" ++
  "+    return database.Delete(\"users\", id)\n" ++
  "+\x7d"

/-- The single FileDiff that parsing Scenario A produces. -/
def scenarioAFile : FileDiff :=
  (parseDiffCore scenarioA).files.headD ⟨"", "", [], []⟩

/-- The per-file tag invariant: every change is tagged with the empty name
or with a name of the seen-list. -/
def fileOk (f : FileDiff) : Prop :=
  ∀ c ∈ f.changes, c.function = "" ∨ c.function ∈ f.functions

/-- The scan-state invariant carried through the parseDiff loop. -/
def stOk (st : ParseState) : Prop :=
  (∀ f ∈ st.files, fileOk f) ∧
  ∀ f, st.currentFile = some f →
    fileOk f ∧ (st.currentFunction = "" ∨ st.currentFunction ∈ f.functions)

/-! ## Syntax analyzer data model (internal/parser/ast.go)

The go/ast expression grammar is embedded as far as extractTypeString
inspects it; anonymous interface, struct and function types are opaque in
the source and stay opaque here. -/

/-- The ast.Expr shapes distinguished by extractTypeString. -/
inductive GoType where
  | ident (name : String)
  | star (t : GoType)
  | slice (t : GoType)
  | array (t : GoType)
  | mapT (k v : GoType)
  | chanSend (t : GoType)
  | chanRecv (t : GoType)
  | chanBoth (t : GoType)
  | ifaceT
  | structT
  | funcT
  | sel (x : GoType) (name : String)
  | unknownT
deriving DecidableEq, Repr

/-- extractTypeString from ast.go. -/
def extractTypeString : GoType → String
  | .ident n => n
  | .star t => "*" ++ extractTypeString t
  | .slice t => "[]" ++ extractTypeString t
  | .array t => "[...]" ++ extractTypeString t
  | .mapT k v => "map[" ++ extractTypeString k ++ "]" ++ extractTypeString v
  | .chanSend t => "chan<- " ++ extractTypeString t
  | .chanRecv t => "<-chan " ++ extractTypeString t
  | .chanBoth t => "chan " ++ extractTypeString t
  | .ifaceT => "interface\x7b\x7d"
  | .structT => "struct\x7b\x7d"
  | .funcT => "func(...)"
  | .sel x n => extractTypeString x ++ "." ++ n
  | .unknownT => "unknown"

/-- The ast node kinds distinguished by the analyzeComplexity walk.
ast.Inspect visits every node of a function body; the walk only branches
on the node kind and accumulates commutatively, so a body is modelled as
the list of its nodes in traversal order (children of calls appear as
their own entries, as the inspector would visit them). -/
inductive BodyNode where
  | callIdent (fname : String)
  | callSel (selName : String)
  | deferS
  | goS
  | ifS
  | forS
  | rangeS
  | switchS
  | typeSwitchS
  | selectS
  | starE
  | chanT
  | ifaceE
  | identE (name : String)
  | otherN
deriving DecidableEq, Repr

/-- ComplexityInfo of the parser package; field defaults are the Go zero
value of the struct. -/
structure ComplexityInfo where
  hasErrors : Bool := false
  hasPointers : Bool := false
  hasInterfaces : Bool := false
  hasChannels : Bool := false
  hasGoroutines : Bool := false
  hasDefers : Bool := false
  hasPanic : Bool := false
  dependencies : List String := []
  cyclomaticComplexity : Nat := 0
  controlFlowCount : Nat := 0
deriving DecidableEq, Repr

/-- One ast.Inspect visit of the analyzeComplexity walk. -/
def visitNode (c : ComplexityInfo) (n : BodyNode) : ComplexityInfo :=
  match n with
  | .callIdent fname => if fname = "panic" then { c with hasPanic := true } else c
  | .callSel selName => if selName = "Error" then { c with hasErrors := true } else c
  | .deferS => { c with hasDefers := true }
  | .goS => { c with hasGoroutines := true }
  | .ifS | .forS | .rangeS | .switchS | .typeSwitchS | .selectS =>
    { c with controlFlowCount := c.controlFlowCount + 1 }
  | .starE => { c with hasPointers := true }
  | .chanT => { c with hasChannels := true }
  | .ifaceE => { c with hasInterfaces := true }
  | .identE name => if name = "error" then { c with hasErrors := true } else c
  | .otherN => c

/-- A function body: source span plus the nodes the inspector visits. -/
structure GoBody where
  startLine : Nat
  endLine : Nat
  nodes : List BodyNode
deriving DecidableEq, Repr

/-- analyzeComplexity from ast.go: walk the body, then derive the
cyclomatic estimate as control-flow count plus one. -/
def analyzeComplexity (body : GoBody) : ComplexityInfo :=
  let c := body.nodes.foldl visitNode {}
  { c with cyclomaticComplexity := c.controlFlowCount + 1 }

/-- extractBodyString from ast.go. -/
def extractBodyString (body : GoBody) : String :=
  "// Function body from line " ++ toString body.startLine ++ " to " ++
    toString body.endLine

/-- An ast.Field: a name group sharing one type. -/
structure GoField where
  names : List String
  type : GoType
deriving DecidableEq, Repr

/-- An ast.FuncDecl as analyzeFunctionDecl consumes it: receiver, name,
parameter and result field lists (none models a nil list), leading doc
comment texts, source span, and an optional body. -/
structure GoFuncDecl where
  name : String
  recv : Option (List GoField)
  params : Option (List GoField)
  results : Option (List GoField)
  doc : List String
  startLine : Nat
  endLine : Nat
  body : Option GoBody
deriving DecidableEq, Repr

structure ParameterInfo where
  name : String
  type : String
deriving DecidableEq, Repr

structure ReturnInfo where
  name : String
  type : String
deriving DecidableEq, Repr

structure ReceiverInfo where
  name : String
  type : String
deriving DecidableEq, Repr

/-- FunctionInfo of the parser package. -/
structure FunctionInfo where
  name : String
  pkg : String
  file : String
  startLine : Nat
  endLine : Nat
  signature : String
  parameters : List ParameterInfo
  returns : List ReturnInfo
  isMethod : Bool
  receiver : Option ReceiverInfo
  comments : List String
  complexity : ComplexityInfo
  body : String
deriving DecidableEq, Repr

/-- strings.TrimPrefix. -/
def goTrimLead (s p : String) : String :=
  if strStarts s p then strDrop s p.length else s

/-- Last path element, a simplified filepath.Base (no separator cleaning,
which the analyzed relative paths do not need). -/
def goPathBase (s : String) : String :=
  match subIdx s.data.reverse ['/'] with
  | some i => ⟨(s.data.reverse.take i).reverse⟩
  | none => s

/-- Everything before the last path element, a simplified filepath.Dir. -/
def goPathDir (s : String) : String :=
  match subIdx s.data.reverse ['/'] with
  | some i => ⟨s.data.take (s.data.length - i - 1)⟩
  | none => "."

/-- filepath.Base(filepath.Dir(filePath)), the package guess of
analyzeFunctionDecl. -/
def pkgFromPath (filePath : String) : String := goPathBase (goPathDir filePath)

/-- Flatten a field list the way analyzeFunctionDecl does: one entry per
bound name, or a single entry with an empty name for an unnamed group. -/
def fieldEntries (fields : List GoField) : List (String × String) :=
  fields.foldl
    (fun acc fld =>
      match fld.names with
      | [] => acc ++ [("", extractTypeString fld.type)]
      | ns => acc ++ ns.map (fun n => (n, extractTypeString fld.type)))
    []

/-- Render of one parameter inside buildSignatureString. -/
def paramFrag (p : ParameterInfo) : String :=
  (if p.name ≠ "" then p.name ++ " " else "") ++ p.type

/-- Render of one return inside buildSignatureString. -/
def retFrag (r : ReturnInfo) : String :=
  (if r.name ≠ "" then r.name ++ " " else "") ++ r.type

/-- Comma-space interleaving, as the write-loop of buildSignatureString. -/
def joinComma : List String → String
  | [] => ""
  | [s] => s
  | s :: rest => s ++ ", " ++ joinComma rest

/-- The receiver clause buildSignatureString writes for a method. -/
def recvClause (fi : FunctionInfo) : String :=
  if fi.isMethod then
    match fi.receiver with
    | some r => "(" ++ (if r.name ≠ "" then r.name ++ " " else "") ++ r.type ++ ") "
    | none => ""
  else ""

/-- The return clause buildSignatureString writes: nothing, one bare
return, or a parenthesized comma-joined group. -/
def retClause (fi : FunctionInfo) : String :=
  match fi.returns with
  | [] => ""
  | rets =>
    " " ++ (if rets.length > 1 then "(" else "") ++
      joinComma (rets.map retFrag) ++
      (if rets.length > 1 then ")" else "")

/-- buildSignatureString from ast.go. -/
def buildSignatureString (fi : FunctionInfo) : String :=
  "func " ++ recvClause fi ++
  fi.name ++ "(" ++ joinComma (fi.parameters.map paramFrag) ++ ")" ++
  retClause fi

/-- One step of the error-return backfill loop of analyzeFunctionDecl. -/
def errBackfillStep (c : ComplexityInfo) (r : ReturnInfo) : ComplexityInfo :=
  if r.type = "error" then { c with hasErrors := true } else c

/-- One step of the pointer-parameter backfill loop of analyzeFunctionDecl. -/
def ptrBackfillStep (c : ComplexityInfo) (p : ParameterInfo) : ComplexityInfo :=
  if strStarts p.type "*" then { c with hasPointers := true } else c

/-- The pointer-receiver backfill of analyzeFunctionDecl. -/
def recvBackfill (c : ComplexityInfo) (isMethod : Bool)
    (recv : Option ReceiverInfo) : ComplexityInfo :=
  match recv with
  | some r =>
    if isMethod && strStarts r.type "*" then { c with hasPointers := true } else c
  | none => c

/-- analyzeFunctionDecl from ast.go: names, spans, receiver, parameters,
returns, comments, rendered signature, body complexity when a body is
present, and the signature-driven backfill of the error and pointer flags
(which runs whether or not there is a body). -/
def analyzeFunctionDecl (d : GoFuncDecl) (filePath : String) : FunctionInfo :=
  let receiver : Option ReceiverInfo :=
    match d.recv with
    | some (r :: _) =>
      some ⟨(match r.names with | n :: _ => n | [] => ""), extractTypeString r.type⟩
    | _ => none
  let params : List ParameterInfo :=
    match d.params with
    | none => []
    | some fs => (fieldEntries fs).map (fun e => ⟨e.1, e.2⟩)
  let rets : List ReturnInfo :=
    match d.results with
    | none => []
    | some fs => (fieldEntries fs).map (fun e => ⟨e.1, e.2⟩)
  let base : FunctionInfo :=
    { name := d.name
      pkg := pkgFromPath filePath
      file := filePath
      startLine := d.startLine
      endLine := d.endLine
      signature := ""
      parameters := params
      returns := rets
      isMethod := receiver.isSome
      receiver := receiver
      comments := d.doc.map (fun c => goTrimLead c "//")
      complexity := {}
      body := "" }
  let base := { base with signature := buildSignatureString base }
  let base :=
    match d.body with
    | some b => { base with complexity := analyzeComplexity b, body := extractBodyString b }
    | none => base
  let comp := base.returns.foldl errBackfillStep base.complexity
  let comp := base.parameters.foldl ptrBackfillStep comp
  let comp := recvBackfill comp base.isMethod base.receiver
  { base with complexity := comp }

/-! ## File-level analysis (ParseFile and analyzeGenDecl) -/

structure ImportInfo where
  name : String
  path : String
deriving DecidableEq, Repr

structure TypeInfo where
  name : String
  kind : String
  fields : List String
deriving DecidableEq, Repr

/-- A Go map that may be nil: none is the nil map, some the entries. -/
def GoMap := Option (List (String × String))

instance : DecidableEq GoMap := by unfold GoMap; infer_instance

/-- Writing to a Go map: overwrite the key if present, append otherwise;
writing to a nil map is a run-time panic, modelled as none. -/
def goMapInsert (m : GoMap) (k v : String) : Option GoMap :=
  match m with
  | none => none
  | some entries =>
    if entries.any (fun e => e.1 = k) then
      some (some (entries.map (fun e => if e.1 = k then (k, v) else e)))
    else some (some (entries ++ [(k, v)]))

/-- FileAnalysis: ParseFile initializes the constants map but never the
variables map, which therefore stays nil. -/
structure FileAnalysis where
  packageName : String
  imports : List ImportInfo
  functions : List FunctionInfo
  constants : GoMap
  vars : GoMap
  types : List TypeInfo
deriving DecidableEq

/-- The expression shapes extractValue distinguishes. -/
inductive GoExprV where
  | lit (value : String)
  | identE (name : String)
  | otherE
deriving DecidableEq, Repr

/-- extractValue from ast.go. -/
def extractValue : GoExprV → String
  | .lit v => v
  | .identE n => n
  | .otherE => "unknown"

/-- An ast.Spec inside a GenDecl. -/
inductive GoSpec where
  | valueSpec (names : List String) (values : List GoExprV)
  | typeSpec (name : String) (type : GoType)
deriving DecidableEq, Repr

/-- The declaration keyword of a GenDecl. -/
inductive GoTok where
  | constTok
  | varTok
  | importTok
  | typeTok
deriving DecidableEq, Repr

structure GoGenDecl where
  tok : GoTok
  specs : List GoSpec
deriving DecidableEq, Repr

/-- One value-spec pass of analyzeGenDecl: write name i to the map when a
value with index i exists.  A nil map propagates the panic. -/
def writeValueSpec (m : GoMap) (names : List String) (values : List GoExprV) :
    Option GoMap :=
  (names.enum.foldl
    (fun acc p =>
      match acc with
      | none => none
      | some m =>
        if p.1 < values.length then
          goMapInsert m p.2 (extractValue (values.getD p.1 GoExprV.otherE))
        else some m)
    (some m))

/-- analyzeGenDecl from ast.go, acting on the running FileAnalysis; none
models the nil-map write panic. -/
def analyzeGenDecl (decl : GoGenDecl) (analysis : FileAnalysis) :
    Option FileAnalysis :=
  decl.specs.foldl
    (fun acc spec =>
      match acc with
      | none => none
      | some a =>
        match spec with
        | .valueSpec names values =>
          match decl.tok with
          | .constTok =>
            match writeValueSpec a.constants names values with
            | none => none
            | some m => some { a with constants := m }
          | .varTok =>
            match writeValueSpec a.vars names values with
            | none => none
            | some m => some { a with vars := m }
          | _ => some a
        | .typeSpec name ty =>
          some { a with types := a.types ++ [⟨name, extractTypeString ty, []⟩] })
    (some analysis)

/-- A top-level declaration as the ast.Inspect walk of ParseFile visits it. -/
inductive GoDecl where
  | funcD (d : GoFuncDecl)
  | genD (g : GoGenDecl)
deriving DecidableEq, Repr

/-- ParseFile from ast.go, applied to an already-parsed syntactically
valid file (package clause, imports, and the declaration walk).  The
result map for constants is initialized; the variables map is not, so the
first variable write panics (none). -/
def parseFileAST (pkgName : String) (imports : List ImportInfo)
    (decls : List GoDecl) (filePath : String) : Option FileAnalysis :=
  decls.foldl
    (fun acc d =>
      match acc with
      | none => none
      | some a =>
        match d with
        | .funcD fd => some { a with functions := a.functions ++ [analyzeFunctionDecl fd filePath] }
        | .genD g => analyzeGenDecl g a)
    (some
      { packageName := pkgName
        imports := imports
        functions := []
        constants := some []
        vars := none
        types := [] })

/-- FileAnalysis.FilterFunctions: keep the functions whose name is in the
requested set, in declaration order. -/
def FilterFunctions (fa : FileAnalysis) (functionNames : List String) :
    List FunctionInfo :=
  fa.functions.filter (fun fn => functionNames.contains fn.name)

/-! ## Models package (pkg/models/types.go) -/

structure MParameterInfo where
  name : String
  type : String
deriving DecidableEq, Repr

structure MReturnInfo where
  name : String
  type : String
deriving DecidableEq, Repr

structure MReceiverInfo where
  name : String
  type : String
deriving DecidableEq, Repr

/-- models.ComplexityInfo: unlike the parser-side profile it has no defer,
panic or control-flow-count field. -/
structure MComplexityInfo where
  hasErrors : Bool := false
  hasPointers : Bool := false
  hasInterfaces : Bool := false
  hasChannels : Bool := false
  hasGoroutines : Bool := false
  dependencies : List String := []
  cyclomaticComplexity : Nat := 0
deriving DecidableEq, Repr

/-- models.FunctionInfo, the reconciler currency. -/
structure MFunctionInfo where
  name : String
  pkg : String
  file : String
  signature : String
  parameters : List MParameterInfo
  returns : List MReturnInfo
  isMethod : Bool
  receiver : Option MReceiverInfo
  comments : List String
  complexity : MComplexityInfo
deriving DecidableEq, Repr

/-! ## Reconciler (internal/analyzer/integration.go) -/

/-- convertToModelFunction: fields are copied; the parser-only complexity
fields (defers, panic, control-flow count) are dropped. -/
def convertToModelFunction (fn : FunctionInfo) : MFunctionInfo :=
  { name := fn.name
    pkg := fn.pkg
    file := fn.file
    signature := fn.signature
    parameters := fn.parameters.map (fun p => ⟨p.name, p.type⟩)
    returns := fn.returns.map (fun r => ⟨r.name, r.type⟩)
    isMethod := fn.isMethod
    receiver := (if fn.isMethod then fn.receiver else none).map (fun r => ⟨r.name, r.type⟩)
    comments := fn.comments
    complexity :=
      { hasErrors := fn.complexity.hasErrors
        hasPointers := fn.complexity.hasPointers
        hasInterfaces := fn.complexity.hasInterfaces
        hasChannels := fn.complexity.hasChannels
        hasGoroutines := fn.complexity.hasGoroutines
        dependencies := fn.complexity.dependencies
        cyclomaticComplexity := fn.complexity.cyclomaticComplexity } }

/-- isTestFunction from integration.go, with the Go evaluation order: the
length guard checks only for more than four characters, after which the
disjuncts slice four, nine, then seven characters in order.  A slice
beyond the length of the name is a run-time panic, modelled as none. -/
def goSliceTo (name : String) (n : Nat) : Option String :=
  if n ≤ name.length then some (strTake name n) else none

def isTestFunction (name : String) : Option Bool :=
  if name.length > 4 then
    match goSliceTo name 4 with
    | none => none
    | some p4 =>
      if p4 = "Test" then some true
      else
        match goSliceTo name 9 with
        | none => none
        | some p9 =>
          if p9 = "Benchmark" then some true
          else
            match goSliceTo name 7 with
            | none => none
            | some p7 =>
              if p7 = "Example" then some true
              else some (p4 = "Fuzz")
  else some false

/-- isExported from integration.go: first byte in the ASCII uppercase
range (an empty name is not exported). -/
def isExported (name : String) : Bool :=
  match name.data with
  | [] => false
  | c :: _ => decide ('A' ≤ c) && decide (c ≤ 'Z')

/-- shouldGenerateTest from integration.go, its five checks in source
order with short-circuit; a panic inside isTestFunction propagates. -/
def shouldGenerateTest (fn : MFunctionInfo) : Option Bool :=
  if fn.name = "main" then some false
  else if fn.name = "init" then some false
  else
    match isTestFunction fn.name with
    | none => none
    | some true => some false
    | some false =>
      if !isExported fn.name then some false
      else if fn.complexity.cyclomaticComplexity > 15 then some false
      else if fn.parameters.length = 0 && fn.returns.length = 0 then some false
      else some true

/-- ChangedFileAnalysis from integration.go. -/
structure ChangedFileAnalysis where
  filePath : String
  modifiedFunctions : List String
  functionDetails : List MFunctionInfo
  fileAnalysis : Option FileAnalysis
deriving DecidableEq

/-- AnalysisResult from integration.go. -/
structure AnalysisResult where
  changedFiles : List ChangedFileAnalysis
  totalFunctions : Nat
  modifiedFunctions : Nat
  generationTargets : List MFunctionInfo
deriving DecidableEq

/-- buildGenerationTargets: apply shouldGenerateTest to every function of
every changed file in order; none propagates a panic. -/
def buildGenerationTargets (changedFiles : List ChangedFileAnalysis) :
    Option (List MFunctionInfo) :=
  changedFiles.foldl
    (fun acc file =>
      file.functionDetails.foldl
        (fun acc fn =>
          match acc with
          | none => none
          | some ts =>
            match shouldGenerateTest fn with
            | none => none
            | some true => some (ts ++ [fn])
            | some false => some ts)
        acc)
    (some [])

/-- The per-file loop body of AnalyzeSpecificFunctions: skip non-Go paths
and test files, skip files that fail to parse, keep the requested (or,
with an empty request, all) functions, and skip files with no match.
The parse of a path is supplied by the environment. -/
def asfStep (parse : String → Option FileAnalysis) (functionNames : List String)
    (st : List ChangedFileAnalysis × Nat × Nat) (filePath : String) :
    List ChangedFileAnalysis × Nat × Nat :=
  if !(strEnds filePath ".go") || strEnds filePath "_test.go" then st
  else
    match parse filePath with
    | none => st
    | some fileAnalysis =>
      let filtered := fileAnalysis.functions.filter
        (fun fn => functionNames.length = 0 || functionNames.contains fn.name)
      if filtered.length = 0 then st
      else
        let matchedNames := filtered.map (fun fn => fn.name)
        let functionDetails := filtered.map convertToModelFunction
        (st.1 ++ [⟨filePath, matchedNames, functionDetails, some fileAnalysis⟩],
          st.2.1 + functionDetails.length, st.2.2 + matchedNames.length)

/-- AnalyzeSpecificFunctions from integration.go.  The Go function returns
a nil error on every input; a panic inside buildGenerationTargets is
modelled as none. -/
def AnalyzeSpecificFunctions (parse : String → Option FileAnalysis)
    (filePaths functionNames : List String) : Option AnalysisResult :=
  let st := filePaths.foldl (asfStep parse functionNames) ([], 0, 0)
  match buildGenerationTargets st.1 with
  | none => none
  | some targets =>
    some { changedFiles := st.1, totalFunctions := st.2.1,
           modifiedFunctions := st.2.2, generationTargets := targets }

/-! ## Configuration filtering rules (internal/config) -/

/-- config.FilterConfig. -/
structure FilterConfig where
  includeUnexported : Bool
  maxComplexity : Nat
  minComplexity : Nat
  skipPatterns : List String
  requireParams : Bool
  requireReturns : Bool
deriving DecidableEq, Repr

/-- The Filtering section of config.DefaultConfig. -/
def defaultFilterConfig : FilterConfig :=
  { includeUnexported := false
    maxComplexity := 15
    minComplexity := 1
    skipPatterns := ["main", "init"]
    requireParams := false
    requireReturns := false }

/-- Modelled from the spec: the selection policy the claim describes for
the target-building path — the five predicates of shouldGenerateTest in
the same order with first-failure short-circuit, but with the visibility
requirement overridable by the configured includeUnexported flag and with
the cyclomatic ceiling taken from the configured maxComplexity instead of
a fixed constant.  This definition exists only to be compared against the
code's shouldGenerateTest, which takes no configuration at all. -/
def specShouldGenerateTestConfigured (cfg : FilterConfig) (fn : MFunctionInfo) :
    Option Bool :=
  if fn.name = "main" then some false
  else if fn.name = "init" then some false
  else
    match isTestFunction fn.name with
    | none => none
    | some true => some false
    | some false =>
      if !isExported fn.name && !cfg.includeUnexported then some false
      else if fn.complexity.cyclomaticComplexity > cfg.maxComplexity then some false
      else if fn.parameters.length = 0 && fn.returns.length = 0 then some false
      else some true

/-! ## Well-formedness of analyzer inputs, and the spec-side signature
re-extraction used by the round-trip property

A descriptor produced by the Syntax Analyzer from a parsed Go file has
identifier names and types built from the go/ast grammar; the predicates
below state exactly that, and the round-trip theorem assumes them. -/

/-- A character of a Go identifier (ASCII fragment). -/
def isIdentChar (c : Char) : Bool := c.isAlpha || c.isDigit || c = '_'

/-- A nonempty identifier. -/
def identOk (s : String) : Bool := !(s = "") && s.data.all isIdentChar

/-- Every name embedded in a type expression is an identifier. -/
def typeWF : GoType → Bool
  | .ident n => identOk n
  | .star t => typeWF t
  | .slice t => typeWF t
  | .array t => typeWF t
  | .mapT k v => typeWF k && typeWF v
  | .chanSend t => typeWF t
  | .chanRecv t => typeWF t
  | .chanBoth t => typeWF t
  | .ifaceT => true
  | .structT => true
  | .funcT => true
  | .sel x n => typeWF x && identOk n
  | .unknownT => true

/-- A well-formed field: identifier names bound to a well-formed type. -/
def fieldWF (fld : GoField) : Bool :=
  fld.names.all identOk && typeWF fld.type

/-- A declaration as the Go parser would actually deliver it: identifier
function name, identifier bound names, types from the grammar. -/
def declWF (d : GoFuncDecl) : Bool :=
  identOk d.name &&
  (match d.recv with | some l => l.all fieldWF | none => true) &&
  (match d.params with | some l => l.all fieldWF | none => true) &&
  (match d.results with | some l => l.all fieldWF | none => true)

/-- A character that the parameter scanner passes over: not a paren and
not a comma. -/
def flatChar (c : Char) : Bool := !(c = '(') && !(c = ')') && !(c = ',')

/-- A good first character for a rendered name or type fragment: not a
space character, paren or comma. -/
def goodHead (c : Char) : Bool := !isGoSpace c && flatChar c

/-- Depth-aware scan of a parenthesized group: count top-level commas and
return the remainder after the matching close paren. -/
def paramScan : List Char → Nat → Nat → Option (Nat × List Char)
  | [], _, _ => none
  | c :: rest, depth, commas =>
    if c = '(' then paramScan rest (depth + 1) commas
    else if c = ')' then
      match depth with
      | 0 => some (commas, rest)
      | d + 1 => paramScan rest d commas
    else if c = ',' then
      match depth with
      | 0 => paramScan rest 0 (commas + 1)
      | d + 1 => paramScan rest (d + 1) commas
    else paramScan rest depth commas

/-- Modelled from the spec: the receiver-clause skip the re-extraction
performs on raw characters, mirroring the skip of extractFunctionName. -/
def recvSkip (l : List Char) : List Char :=
  if l.head? = some '(' then
    match subIdx l [')', ' '] with
    | some i => l.drop (i + 2)
    | none => l
  else l

/-- Modelled from the spec: the parameter count of a scanned group — zero
for an empty group, otherwise one more than the top-level commas. -/
def pcountOf (rest : List Char) (commas : Nat) : Nat :=
  if rest.head? = some ')' then 0 else commas + 1

/-- Modelled from the spec: classify the text after the parameter group
as no return, a parenthesized comma-joined return group, or one bare
return. -/
def retCountOf (after : List Char) : Option Nat :=
  if after.isEmpty then some 0
  else if after.head? = some ' ' ∧ (after.drop 1).head? = some '(' then
    match paramScan (after.drop 2) 0 0 with
    | none => none
    | some (c2, _) => some (c2 + 1)
  else some 1

/-- Modelled from the spec: the counts read off the name-and-later part
of a signature: find the parameter group, scan it, classify the rest. -/
def countsCore (l : List Char) : Option (Nat × Nat) :=
  match subIdx l ['('] with
  | none => none
  | some p =>
    match paramScan (l.drop (p + 1)) 0 0 with
    | none => none
    | some (commas, after) =>
      match retCountOf after with
      | none => none
      | some rc => some (pcountOf (l.drop (p + 1)) commas, rc)

/-- Modelled from the spec: re-extract the parameter count and return
count from a rendered signature string (the spec's round-trip property
names no concrete extractor, so this is its natural reading): skip the
func keyword and a parenthesized receiver clause the way
extractFunctionName does, scan the parameter group counting top-level
commas, and classify the remainder as no return, a single return, or a
parenthesized return group. -/
def specSigCounts (sig : String) : Option (Nat × Nat) :=
  if strStarts sig "func " then
    countsCore (recvSkip (strDrop sig 5).data)
  else none

/-- A list the parameter scanner passes through unchanged, at any depth
and comma count. -/
def Skips (l : List Char) : Prop :=
  ∀ d commas rest, paramScan (l ++ rest) d commas = paramScan rest d commas

/-- No close paren directly followed by a space anywhere in the list. -/
def noCloseSpace : List Char → Bool
  | [] => true
  | [_] => true
  | a :: b :: t => !(a = ')' && b = ' ') && noCloseSpace (b :: t)

/-- The syntactic facts about a rendered type string that the round-trip
proof consumes. -/
structure TypeStrOk (s : String) : Prop where
  skips : Skips s.data
  headOk : ∃ c t, s.data = c :: t ∧ goodHead c = true
  lastOk : ∃ c, s.data.getLast? = some c ∧ isGoSpace c = false
  noCS : noCloseSpace s.data = true

/-- The characters of a rendered signature after the func keyword and the
receiver clause: name, parameter group, return clause. -/
def tailData (fi : FunctionInfo) : List Char :=
  fi.name.data ++ '(' ::
    ((joinComma (fi.parameters.map paramFrag)).data ++ ')' :: (retClause fi).data)

/-- The facts about a fragment that may end in a space (a bound name with
its trailing separator): everything of TypeStrOk except the last
character. -/
structure PreOk (s : String) : Prop where
  skips : Skips s.data
  headOk : ∃ c t, s.data = c :: t ∧ goodHead c = true
  noCS : noCloseSpace s.data = true

/-- A parameter, return or receiver name: empty or an identifier. -/
def pNameOk (s : String) : Prop := s = "" ∨ identOk s = true

/-- The facts about a FunctionInfo under which its rendered signature
round-trips. -/
structure FiSigWF (fi : FunctionInfo) : Prop where
  nameOk : identOk fi.name = true
  paramsOk : ∀ p ∈ fi.parameters, pNameOk p.name ∧ TypeStrOk p.type
  retsOk : ∀ r ∈ fi.returns, pNameOk r.name ∧ TypeStrOk r.type
  recvOk : ∀ r, fi.receiver = some r → pNameOk r.name ∧ TypeStrOk r.type

/-! ## Concrete declarations used by the analyzer claims -/

/-- A declaration with no body (an external declaration), as go/ast
produces for func Foo(x int) int with an assembly implementation. -/
def bodylessDecl : GoFuncDecl :=
  { name := "Foo"
    recv := none
    params := some [⟨["x"], .ident "int"⟩]
    results := some [⟨[], .ident "int"⟩]
    doc := []
    startLine := 3
    endLine := 3
    body := none }

/-- The body of Scenario D: if u == nil, return the empty literal, else
return u.Name — the inspector visit list holds no star expression. -/
def scenarioDBody : GoBody :=
  { startLine := 42
    endLine := 47
    nodes := [.otherN, .ifS, .otherN, .identE "u", .identE "nil", .otherN,
      .otherN, .otherN, .otherN, .otherN, .identE "u", .identE "Name"] }

/-- The Scenario D method declaration func (u *User) GetName() string. -/
def scenarioDDecl : GoFuncDecl :=
  { name := "GetName"
    recv := some [⟨["u"], .star (.ident "User")⟩]
    params := some []
    results := some [⟨[], .ident "string"⟩]
    doc := []
    startLine := 42
    endLine := 47
    body := some scenarioDBody }

/-- A bodyless declaration with an error return, for the backfill witness. -/
def errRetDecl : GoFuncDecl :=
  { name := "Close"
    recv := none
    params := none
    results := some [⟨[], .ident "error"⟩]
    doc := []
    startLine := 9
    endLine := 9
    body := none }

/-- An exported function of complexity 16 with parameters and returns. -/
def complexFn : MFunctionInfo :=
  { name := "Run"
    pkg := "p"
    file := "p.go"
    signature := "func Run(x int) error"
    parameters := [⟨"x", "int"⟩]
    returns := [⟨"", "error"⟩]
    isMethod := false
    receiver := none
    comments := []
    complexity := { cyclomaticComplexity := 16 } }

/-- An unexported short-named function with a parameter. -/
def unexportedFn : MFunctionInfo :=
  { name := "doIt"
    pkg := "p"
    file := "p.go"
    signature := "func doIt(x int) int"
    parameters := [⟨"x", "int"⟩]
    returns := [⟨"", "int"⟩]
    isMethod := false
    receiver := none
    comments := []
    complexity := { cyclomaticComplexity := 1 } }

/-- An exported five-character-named function with a parameter. -/
def helloFn : MFunctionInfo :=
  { name := "Hello"
    pkg := "p"
    file := "p.go"
    signature := "func Hello(x int)"
    parameters := [⟨"x", "int"⟩]
    returns := []
    isMethod := false
    receiver := none
    comments := []
    complexity := {} }

/-- An exported simple function that passes every predicate. -/
def sumFn : MFunctionInfo :=
  { name := "Sum"
    pkg := "p"
    file := "p.go"
    signature := "func Sum(a int, b int) int"
    parameters := [⟨"a", "int"⟩, ⟨"b", "int"⟩]
    returns := [⟨"", "int"⟩]
    isMethod := false
    receiver := none
    comments := []
    complexity := { cyclomaticComplexity := 1 } }

/-! ## Lemmas about the diff parser state machine -/

/-- addFunctionIfModified leaves the change list untouched. -/
theorem addFunc_changes (f : FileDiff) (fn : String) :
    (addFunctionIfModified f fn).changes = f.changes := by
  unfold addFunctionIfModified
  split
  · rfl
  · split <;> rfl

/-- addFunctionIfModified leaves the paths untouched. -/
theorem addFunc_newPath (f : FileDiff) (fn : String) :
    (addFunctionIfModified f fn).newPath = f.newPath := by
  unfold addFunctionIfModified
  split
  · rfl
  · split <;> rfl

/-- A nonempty name is recorded by addFunctionIfModified. -/
theorem addFunc_mem_self (f : FileDiff) (fn : String) (h : fn ≠ "") :
    fn ∈ (addFunctionIfModified f fn).functions := by
  unfold addFunctionIfModified
  rw [if_neg h]
  split
  · next h2 => exact List.elem_iff.mp h2
  · simp

/-- addFunctionIfModified only ever grows the seen-list. -/
theorem addFunc_mem_mono (f : FileDiff) (fn x : String) (h : x ∈ f.functions) :
    x ∈ (addFunctionIfModified f fn).functions := by
  unfold addFunctionIfModified
  split
  · exact h
  · split
    · exact h
    · simp [h]

/-- parseDiffLine tags the produced change with the current function. -/
theorem parseDiffLine_function {line fn : String} {ch : DiffChange}
    (h : parseDiffLine line fn = some ch) : ch.function = fn := by
  unfold parseDiffLine at h
  split at h
  · exact absurd h (by simp)
  · split at h
    · injection h with h2; subst h2; rfl
    · split at h
      · injection h with h2; subst h2; rfl
      · split at h
        · injection h with h2; subst h2; rfl
        · exact absurd h (by simp)

theorem fileOk_mono {f g : FileDiff} (hc : g.changes = f.changes)
    (hf : ∀ x, x ∈ f.functions → x ∈ g.functions) (h : fileOk f) : fileOk g := by
  intro c hcg
  rcases h c (hc ▸ hcg) with h1 | h1
  · exact Or.inl h1
  · exact Or.inr (hf _ h1)

/-- One parseDiff scan step preserves the invariant. -/
theorem stepLine_ok {st : ParseState} (line : String) (h : stOk st) :
    stOk (stepLine st line) := by
  obtain ⟨hfiles, hcur⟩ := h
  unfold stepLine
  split
  · -- file header: flush the open file, start a fresh one
    refine ⟨?_, ?_⟩
    · intro f hf
      simp only [List.mem_append] at hf
      rcases hf with hf | hf
      · exact hfiles f hf
      · rcases hc : st.currentFile with _ | f0 <;> rw [hc] at hf
        · simp at hf
        · simp at hf
          exact hf ▸ (hcur f0 hc).1
    · intro f hf
      cases hf
      exact ⟨fun c hc => by simp at hc, Or.inl rfl⟩
  · split
    · -- hunk header
      split
      · next hef =>
        refine ⟨hfiles, ?_⟩
        intro f hf
        simp only [Option.map_eq_some'] at hf
        obtain ⟨f0, hf0, rfl⟩ := hf
        obtain ⟨hok0, _⟩ := hcur f0 hf0
        refine ⟨fileOk_mono (addFunc_changes f0 _)
          (fun x hx => addFunc_mem_mono f0 _ x hx) hok0, ?_⟩
        exact Or.inr (addFunc_mem_self f0 _ hef.2)
      · exact ⟨hfiles, hcur⟩
    · split
      · -- metadata line: state unchanged
        exact ⟨hfiles, hcur⟩
      · split
        · exact ⟨hfiles, hcur⟩
        · next f0 hc =>
          obtain ⟨hok0, hfn0⟩ := hcur f0 hc
          split
          · refine ⟨hfiles, fun f hf => ?_⟩
            simp only at hf
            rw [hc] at hf
            injection hf with h3
            subst h3
            exact ⟨hok0, hfn0⟩
          · next ch hpl =>
            have hchfn : ch.function = st.currentFunction := parseDiffLine_function hpl
            have hok2 : fileOk
                { f0 with changes := f0.changes ++ [{ ch with lineNum := st.lineNum }] } := by
              intro c hcmem
              simp only [List.mem_append, List.mem_singleton] at hcmem
              rcases hcmem with hcm | hcm
              · exact hok0 c hcm
              · subst hcm
                simpa [hchfn] using hfn0
            split
            · split
              · next hne =>
                refine ⟨hfiles, fun f hf => ?_⟩
                injection hf with h3
                subst h3
                refine ⟨fileOk_mono (addFunc_changes _ _)
                  (fun x hx => addFunc_mem_mono _ _ x hx) hok2, ?_⟩
                exact Or.inr (addFunc_mem_self _ _ hne)
              · refine ⟨hfiles, fun f hf => ?_⟩
                injection hf with h3
                subst h3
                exact ⟨hok2, hfn0⟩
            · refine ⟨hfiles, fun f hf => ?_⟩
              injection hf with h3
              subst h3
              exact ⟨hok2, hfn0⟩

/-- The invariant holds after scanning any list of lines. -/
theorem foldl_stepLine_ok (lines : List String) {st : ParseState} (h : stOk st) :
    stOk (lines.foldl stepLine st) := by
  induction lines generalizing st with
  | nil => exact h
  | cons l rest ih => exact ih (stepLine_ok l h)

/-! ## Theorems for the diff-parser claims -/

/-- C1: evaluating the parser on the Scenario A diff.  The seen-list is
ValidateUser, CreateUser, DeleteUser, as the claim states; but the modified
set computed by GetModifiedFunctions is ValidateUser, CreateUser,
DeleteUser as well — CreateUser is included, contrary to the claim and to
the repository test TestParseDiff, because the blank added separator line
and the added declaration line of DeleteUser are tagged with the
still-current hunk function CreateUser before the tracker updates. -/
theorem C1_scenarioA_modified_set_eval :
    (parseDiffCore scenarioA).files.map FileDiff.functions =
      [["ValidateUser", "CreateUser", "DeleteUser"]] ∧
    (parseDiffCore scenarioA).files.map GetModifiedFunctions =
      [["ValidateUser", "CreateUser", "DeleteUser"]] ∧
    "CreateUser" ∈ GetModifiedFunctions scenarioAFile := by
  decide

/-- C6: every DiffLine function tag produced by parseDiff is either the
empty string or one of the names in its own DiffFile seen-list. -/
theorem C6_tags_subset_seen (diffText : String) :
    ∀ f ∈ (parseDiffCore diffText).files, ∀ c ∈ f.changes,
      c.function = "" ∨ c.function ∈ f.functions := by
  intro f hf c hc
  have h0 : stOk ⟨[], none, "", 0⟩ := ⟨by simp, fun f h => by cases h⟩
  have h1 := foldl_stepLine_ok (scanLines diffText) h0
  unfold parseDiffCore flushState at hf
  generalize hst : (scanLines diffText).foldl stepLine ⟨[], none, "", 0⟩ = st at hf h1
  obtain ⟨hfs, hcur⟩ := h1
  simp only [List.mem_append] at hf
  rcases hf with hf | hf
  · exact hfs f hf c hc
  · rcases hcc : st.currentFile with _ | f0
    · rw [hcc] at hf
      simp at hf
    · rw [hcc] at hf
      simp at hf
      subst hf
      exact (hcur _ hcc).1 c hc

/-- Witness for C6 at the Scenario A diff and its first change line. -/
theorem C6_tags_subset_seen_w :
    (scenarioAFile.changes.headD ⟨ChangeType.added, "", 0, ""⟩).function = "" ∨
    (scenarioAFile.changes.headD ⟨ChangeType.added, "", 0, ""⟩).function ∈
      scenarioAFile.functions :=
  C6_tags_subset_seen scenarioA scenarioAFile (by decide) _ (by decide)

/-- C8: the parser is total — parseDiff (and ParseDiff) return a result
with a nil error on every input string — and a line matching no pattern
(no file header, no hunk header, no metadata marker, no plus, minus or
space marker) is skipped: the scan state is unchanged apart from the line
counter. -/
theorem C8_parse_total_and_skips :
    (∀ t : String, ∃ r, ParseDiff t = Except.ok r) ∧
    (∀ (st : ParseState) (line : String),
      fileHeaderMatch line = none → hunkHeaderMatch line = none →
      strStarts line "index " = false → strStarts line "--- " = false →
      strStarts line "+++ " = false →
      parseDiffLine line st.currentFunction = none →
      stepLine st line =
        { st with lineNum := if st.currentFile.isSome then st.lineNum + 1 else st.lineNum }) := by
  constructor
  · intro t
    exact ⟨parseDiffCore t, rfl⟩
  · intro st line h1 h2 h3 h4 h5 h6
    obtain ⟨fs, cf, cfn, ln⟩ := st
    simp only at h6
    unfold stepLine
    rw [h1, h2, h3, h4, h5]
    rcases cf with _ | f
    · rfl
    · simp only [h6]
      rfl

/-- Witness for C8: a garbage input parses to ok, and a garbage line
inside a file section only advances the line counter. -/
theorem C8_parse_total_and_skips_w :
    (∃ r, ParseDiff "@@ junk @@" = Except.ok r) ∧
    stepLine ⟨[], some ⟨"a.go", "a.go", [], []⟩, "", 3⟩ "junk" =
      ⟨[], some ⟨"a.go", "a.go", [], []⟩, "", 4⟩ := by
  refine ⟨C8_parse_total_and_skips.1 "@@ junk @@", ?_⟩
  exact (C8_parse_total_and_skips.2 ⟨[], some ⟨"a.go", "a.go", [], []⟩, "", 3⟩ "junk"
    (by decide) (by decide) (by decide) (by decide) (by decide) (by decide)).trans (by decide)

/-! ## Lemmas about the signature backfill of analyzeFunctionDecl -/

theorem errFold_cc (rets : List ReturnInfo) (c : ComplexityInfo) :
    (rets.foldl errBackfillStep c).cyclomaticComplexity = c.cyclomaticComplexity := by
  induction rets generalizing c with
  | nil => rfl
  | cons r rest ih =>
    rw [List.foldl_cons, ih]
    unfold errBackfillStep
    split <;> rfl

theorem ptrFold_cc (ps : List ParameterInfo) (c : ComplexityInfo) :
    (ps.foldl ptrBackfillStep c).cyclomaticComplexity = c.cyclomaticComplexity := by
  induction ps generalizing c with
  | nil => rfl
  | cons p rest ih =>
    rw [List.foldl_cons, ih]
    unfold ptrBackfillStep
    split <;> rfl

theorem recvBackfill_cc (c : ComplexityInfo) (m : Bool) (recv : Option ReceiverInfo) :
    (recvBackfill c m recv).cyclomaticComplexity = c.cyclomaticComplexity := by
  unfold recvBackfill
  split
  · split <;> rfl
  · rfl

theorem errFold_hasErrors_of_mem (rets : List ReturnInfo) (c : ComplexityInfo)
    (h : ∃ r ∈ rets, r.type = "error") :
    (rets.foldl errBackfillStep c).hasErrors = true := by
  induction rets generalizing c with
  | nil => exact absurd h (by simp)
  | cons r rest ih =>
    rw [List.foldl_cons]
    rcases h with ⟨r0, hr0, htype⟩
    rcases List.mem_cons.mp hr0 with hr0 | hr0
    · subst hr0
      have hstep : (errBackfillStep c r0).hasErrors = true := by
        unfold errBackfillStep
        rw [if_pos htype]
      have hmono : ∀ (l : List ReturnInfo) (c : ComplexityInfo),
          c.hasErrors = true → (l.foldl errBackfillStep c).hasErrors = true := by
        intro l
        induction l with
        | nil => intro c h; exact h
        | cons x xs ih2 =>
          intro c h
          rw [List.foldl_cons]
          apply ih2
          unfold errBackfillStep
          split <;> simp [h]
      exact hmono rest _ hstep
    · exact ih _ ⟨r0, hr0, htype⟩

theorem errFold_hasErrors_mono (rets : List ReturnInfo) (c : ComplexityInfo)
    (h : c.hasErrors = true) :
    (rets.foldl errBackfillStep c).hasErrors = true := by
  induction rets generalizing c with
  | nil => exact h
  | cons r rest ih =>
    rw [List.foldl_cons]
    apply ih
    unfold errBackfillStep
    split <;> simp [h]

theorem ptrFold_hasErrors (ps : List ParameterInfo) (c : ComplexityInfo) :
    (ps.foldl ptrBackfillStep c).hasErrors = c.hasErrors := by
  induction ps generalizing c with
  | nil => rfl
  | cons p rest ih =>
    rw [List.foldl_cons, ih]
    unfold ptrBackfillStep
    split <;> rfl

theorem recvBackfill_hasErrors (c : ComplexityInfo) (m : Bool)
    (recv : Option ReceiverInfo) :
    (recvBackfill c m recv).hasErrors = c.hasErrors := by
  unfold recvBackfill
  split
  · split <;> rfl
  · rfl

theorem ptrFold_hasPointers_of_mem (ps : List ParameterInfo) (c : ComplexityInfo)
    (h : ∃ p ∈ ps, strStarts p.type "*" = true) :
    (ps.foldl ptrBackfillStep c).hasPointers = true := by
  induction ps generalizing c with
  | nil => exact absurd h (by simp)
  | cons p rest ih =>
    rw [List.foldl_cons]
    rcases h with ⟨p0, hp0, htype⟩
    rcases List.mem_cons.mp hp0 with hp0 | hp0
    · subst hp0
      have hstep : (ptrBackfillStep c p0).hasPointers = true := by
        unfold ptrBackfillStep
        rw [if_pos htype]
      have hmono : ∀ (l : List ParameterInfo) (c : ComplexityInfo),
          c.hasPointers = true → (l.foldl ptrBackfillStep c).hasPointers = true := by
        intro l
        induction l with
        | nil => intro c h; exact h
        | cons x xs ih2 =>
          intro c h
          rw [List.foldl_cons]
          apply ih2
          unfold ptrBackfillStep
          split <;> simp [h]
      exact hmono rest _ hstep
    · exact ih _ ⟨p0, hp0, htype⟩

theorem ptrFold_hasPointers_mono (ps : List ParameterInfo) (c : ComplexityInfo)
    (h : c.hasPointers = true) :
    (ps.foldl ptrBackfillStep c).hasPointers = true := by
  induction ps generalizing c with
  | nil => exact h
  | cons p rest ih =>
    rw [List.foldl_cons]
    apply ih
    unfold ptrBackfillStep
    split <;> simp [h]

theorem recvBackfill_hasPointers_mono (c : ComplexityInfo) (m : Bool)
    (recv : Option ReceiverInfo) (h : c.hasPointers = true) :
    (recvBackfill c m recv).hasPointers = true := by
  unfold recvBackfill
  split
  · split <;> simp [h]
  · exact h

theorem recvBackfill_hasPointers_of (c : ComplexityInfo) (r : ReceiverInfo)
    (hstar : strStarts r.type "*" = true) :
    (recvBackfill c true (some r)).hasPointers = true := by
  unfold recvBackfill
  simp [hstar]

/-- The shape of the complexity profile analyzeFunctionDecl produces: the
body walk (or the zero value without a body) refined by the three
signature backfills, with the other descriptor fields unchanged. -/
theorem analyzeFunctionDecl_complexity (d : GoFuncDecl) (fp : String) :
    (analyzeFunctionDecl d fp).complexity =
      recvBackfill
        ((analyzeFunctionDecl d fp).parameters.foldl ptrBackfillStep
          ((analyzeFunctionDecl d fp).returns.foldl errBackfillStep
            (match d.body with | some b => analyzeComplexity b | none => {})))
        (analyzeFunctionDecl d fp).isMethod
        (analyzeFunctionDecl d fp).receiver := by
  unfold analyzeFunctionDecl
  cases d.body <;> rfl

/-- IsMethod is set exactly when a receiver was recorded. -/
theorem analyzeFunctionDecl_isMethod (d : GoFuncDecl) (fp : String) :
    (analyzeFunctionDecl d fp).isMethod =
      (analyzeFunctionDecl d fp).receiver.isSome := by
  unfold analyzeFunctionDecl
  cases d.body <;> rfl

/-! ## Theorems for the analyzer claims -/

/-- C2: evaluating isTestFunction at names of length five through eight
that do not start with Test.  The guard only requires more than four
characters, after which the Benchmark disjunct slices nine characters and
faults, so the predicate is not total: "Hello" (five characters) and even
the well-formed "Example1" (eight characters) panic, and so does
shouldGenerateTest on a function named "Hello".  Names of at most four
characters and Test-names behave. -/
theorem C2_isTestFunction_panics :
    isTestFunction "Hello" = none ∧
    isTestFunction "Example1" = none ∧
    shouldGenerateTest helloFn = none ∧
    isTestFunction "Func" = some false ∧
    isTestFunction "TestFoo" = some true ∧
    isTestFunction "Benchmark1" = some true := by
  decide

/-- C3 counterexample: a declaration without a body keeps the zero-valued
complexity profile, so its cyclomatic estimate is 0, not at least 1. -/
theorem C3_counterexample_bodyless_zero :
    (analyzeFunctionDecl bodylessDecl "pkg/foo.go").complexity.cyclomaticComplexity
      = 0 := by
  decide

/-- C3 amended: every FunctionDescriptor produced from a declaration that
has a body has cyclomatic complexity at least 1 (control-flow count plus
one); bodyless declarations keep the zero value. -/
theorem C3_cyclomatic_ge_one_with_body (d : GoFuncDecl) (filePath : String)
    (b : GoBody) (h : d.body = some b) :
    1 ≤ (analyzeFunctionDecl d filePath).complexity.cyclomaticComplexity := by
  rw [analyzeFunctionDecl_complexity, recvBackfill_cc, ptrFold_cc, errFold_cc, h]
  simp [analyzeComplexity]

/-- Witness for C3 at the Scenario D method. -/
theorem C3_cyclomatic_ge_one_with_body_w :
    1 ≤ (analyzeFunctionDecl scenarioDDecl "user.go").complexity.cyclomaticComplexity :=
  C3_cyclomatic_ge_one_with_body scenarioDDecl "user.go" scenarioDBody (by decide)

/-- C4: evaluating ParseFile on a valid file whose top level contains
var x = 1.  The Variables map is never initialized, so the write is a
nil-map assignment panic and the analysis does not return normally; the
same file with const x = 1 succeeds and records the constant. -/
theorem C4_parsefile_var_panics :
    parseFileAST "main" []
      [.genD ⟨.varTok, [.valueSpec ["x"] [.lit "1"]]⟩] "main.go" = none ∧
    (parseFileAST "main" []
      [.genD ⟨.constTok, [.valueSpec ["x"] [.lit "1"]]⟩] "main.go").map
        (fun fa => fa.constants) = some (some [("x", "1")]) := by
  decide

/-- C5 counterexample: the target-building predicate shouldGenerateTest,
which buildGenerationTargets applies, takes no configuration: a
complexity-16 exported function and an unexported function are excluded
even though the configured policy the claim describes (ceiling 100,
include-unexported) keeps both. -/
theorem C5_counterexample_config_ignored :
    shouldGenerateTest complexFn = some false ∧
    specShouldGenerateTestConfigured
      ⟨true, 100, 1, [], false, false⟩ complexFn = some true ∧
    shouldGenerateTest unexportedFn = some false ∧
    specShouldGenerateTestConfigured
      ⟨true, 100, 1, [], false, false⟩ unexportedFn = some true ∧
    buildGenerationTargets [⟨"p.go", ["Run"], [complexFn], none⟩] = some [] := by
  decide

/-- C5 amended: shouldGenerateTest applies the five predicates in the
spec's order with first-failure short-circuit, but against fixed policy —
export always required and the ceiling the constant 15 (numerically the
default configuration's ceiling) — and coincides with the configured
policy exactly at those default settings; the loaded configuration is not
consulted by the target-building path. -/
theorem C5_fixed_policy :
    defaultFilterConfig.maxComplexity = 15 ∧
    ∀ (fn : MFunctionInfo) (b : Bool), isTestFunction fn.name = some b →
      ((shouldGenerateTest fn = some true ↔
        (fn.name ≠ "main" ∧ fn.name ≠ "init" ∧ b = false ∧
         isExported fn.name = true ∧
         fn.complexity.cyclomaticComplexity ≤ 15 ∧
         (fn.parameters.length ≠ 0 ∨ fn.returns.length ≠ 0))) ∧
       ∀ cfg : FilterConfig, cfg.includeUnexported = false →
         cfg.maxComplexity = 15 →
         shouldGenerateTest fn = specShouldGenerateTestConfigured cfg fn) := by
  refine ⟨rfl, ?_⟩
  intro fn b hb
  constructor
  · unfold shouldGenerateTest
    rw [hb]
    by_cases h1 : fn.name = "main"
    · simp [h1]
    · by_cases h2 : fn.name = "init"
      · simp [h1, h2]
      · rw [if_neg h1, if_neg h2]
        cases b with
        | true => simp [h1, h2]
        | false =>
          by_cases h3 : isExported fn.name
          · by_cases h4 : fn.complexity.cyclomaticComplexity > 15
            · simp [h1, h2, h3, h4]
              try omega
            · by_cases h5 : fn.parameters.length = 0 ∧ fn.returns.length = 0
              · simp [h1, h2, h3, h4, h5.1, h5.2]
              · simp only [not_and] at h5
                by_cases h6 : fn.parameters.length = 0
                · simp [h1, h2, h3, h4, h6, h5 h6]
                  try omega
                · simp [h1, h2, h3, h4, h6]
                  try omega
          · simp [h1, h2, h3]
  · intro cfg hcu hcm
    unfold shouldGenerateTest specShouldGenerateTestConfigured
    rw [hb, hcu, hcm]
    cases b with
    | true => rfl
    | false => simp

/-- Witness for C5 at a simple exported function and the default
filtering configuration. -/
theorem C5_fixed_policy_w :
    shouldGenerateTest sumFn =
      specShouldGenerateTestConfigured defaultFilterConfig sumFn :=
  (C5_fixed_policy.2 sumFn false (by decide)).2 defaultFilterConfig rfl rfl

/-- C7: the signature-driven backfill of analyzeFunctionDecl — an error
return forces the error flag, a pointer parameter or pointer receiver
forces the pointer flag, with or without a body — and the Scenario D
method func (u *User) GetName() string, whose descriptor is a method with
receiver type *User and pointer flag set even though the body walk alone
leaves the pointer flag false. -/
theorem C7_signature_backfill :
    (∀ (d : GoFuncDecl) (fp : String),
      (∃ r ∈ (analyzeFunctionDecl d fp).returns, r.type = "error") →
      (analyzeFunctionDecl d fp).complexity.hasErrors = true) ∧
    (∀ (d : GoFuncDecl) (fp : String),
      (∃ p ∈ (analyzeFunctionDecl d fp).parameters, strStarts p.type "*" = true) →
      (analyzeFunctionDecl d fp).complexity.hasPointers = true) ∧
    (∀ (d : GoFuncDecl) (fp : String) (r : ReceiverInfo),
      (analyzeFunctionDecl d fp).receiver = some r →
      strStarts r.type "*" = true →
      (analyzeFunctionDecl d fp).complexity.hasPointers = true) ∧
    ((analyzeFunctionDecl scenarioDDecl "user.go").isMethod = true ∧
     (analyzeFunctionDecl scenarioDDecl "user.go").receiver = some ⟨"u", "*User"⟩ ∧
     (analyzeFunctionDecl scenarioDDecl "user.go").complexity.hasPointers = true ∧
     (analyzeComplexity scenarioDBody).hasPointers = false) := by
  refine ⟨?_, ?_, ?_, by decide⟩
  · intro d fp h
    rw [analyzeFunctionDecl_complexity, recvBackfill_hasErrors, ptrFold_hasErrors]
    exact errFold_hasErrors_of_mem _ _ h
  · intro d fp h
    rw [analyzeFunctionDecl_complexity]
    apply recvBackfill_hasPointers_mono
    exact ptrFold_hasPointers_of_mem _ _ h
  · intro d fp r hr hstar
    have hm : (analyzeFunctionDecl d fp).isMethod = true := by
      rw [analyzeFunctionDecl_isMethod, hr]
      rfl
    rw [analyzeFunctionDecl_complexity, hm, hr]
    exact recvBackfill_hasPointers_of _ r hstar

/-- Witness for C7: the bodyless error-returning declaration gets the
error flag, and the Scenario D method gets the pointer flag. -/
theorem C7_signature_backfill_w :
    (analyzeFunctionDecl errRetDecl "a/b.go").complexity.hasErrors = true ∧
    (analyzeFunctionDecl scenarioDDecl "user.go").complexity.hasPointers = true :=
  ⟨C7_signature_backfill.1 errRetDecl "a/b.go" ⟨⟨"", "error"⟩, by decide, rfl⟩,
   C7_signature_backfill.2.2.1 scenarioDDecl "user.go" ⟨"u", "*User"⟩
     (by decide) (by decide)⟩

/-! ## Theorems for the entry-mode filtering claim -/

/-- A step on a path that is not a Go source path (or is a test path)
leaves the AnalyzeSpecificFunctions state unchanged. -/
theorem asfStep_skip (parse : String → Option FileAnalysis)
    (functionNames : List String) (st : List ChangedFileAnalysis × Nat × Nat)
    (p : String) (h : goFileName p = false) :
    asfStep parse functionNames st p = st := by
  unfold goFileName at h
  unfold asfStep
  cases ha : strEnds p ".go" <;> cases hb : strEnds p "_test.go" <;>
    simp_all

/-- Folding a step that skips the elements a predicate rejects is the
same as folding over the filtered list. -/
theorem foldl_filter_of_skip {α β : Type} (f : β → α → β) (p : α → Bool)
    (hskip : ∀ st a, p a = false → f st a = st) (l : List α) (st : β) :
    l.foldl f st = (l.filter p).foldl f st := by
  induction l generalizing st with
  | nil => rfl
  | cons a rest ih =>
    cases hp : p a
    · rw [List.foldl_cons, hskip st a hp, List.filter_cons, if_neg (by simp [hp])]
      exact ih st
    · rw [List.foldl_cons, List.filter_cons, if_pos (by simp [hp]), List.foldl_cons]
      exact ih (f st a)

/-- C10: both entry modes restrict to Go files: FilterGoFiles keeps
exactly the files whose new path ends in .go but not in _test.go,
preserving order (a sublist), and AnalyzeSpecificFunctions gives the same
result on a path list as on its Go-file filtration — every other path is
silently skipped, contributing no analysis, no targets and no error. -/
theorem C10_go_file_filtering :
    (∀ (dr : DiffResult) (f : FileDiff),
      f ∈ (FilterGoFiles dr).files ↔ f ∈ dr.files ∧ goFileName f.newPath = true) ∧
    (∀ dr : DiffResult, (FilterGoFiles dr).files.Sublist dr.files) ∧
    (∀ (parse : String → Option FileAnalysis) (filePaths functionNames : List String),
      AnalyzeSpecificFunctions parse filePaths functionNames =
        AnalyzeSpecificFunctions parse (filePaths.filter goFileName) functionNames) := by
  refine ⟨?_, ?_, ?_⟩
  · intro dr f
    simp [FilterGoFiles, List.mem_filter]
  · intro dr
    exact List.filter_sublist _
  · intro parse filePaths functionNames
    unfold AnalyzeSpecificFunctions
    rw [foldl_filter_of_skip (asfStep parse functionNames) goFileName
      (fun st a ha => asfStep_skip parse functionNames st a ha) filePaths]

/-! ## Character-level lemmas for the round-trip claim -/

theorem strData_append (a b : String) : (a ++ b).data = a.data ++ b.data := rfl

theorem identChar_avoid {c x : Char} (h : isIdentChar c = true)
    (hx : isIdentChar x = false) : ¬(c = x) := by
  intro he
  rw [he, hx] at h
  cases h

theorem identChar_flat {c : Char} (h : isIdentChar c = true) : flatChar c = true := by
  unfold flatChar
  have h1 := identChar_avoid h (x := '(') (by decide)
  have h2 := identChar_avoid h (x := ')') (by decide)
  have h3 := identChar_avoid h (x := ',') (by decide)
  simp [h1, h2, h3]

theorem identChar_space {c : Char} (h : isIdentChar c = true) : isGoSpace c = false := by
  unfold isGoSpace
  have h1 := identChar_avoid h (x := ' ') (by decide)
  have h2 := identChar_avoid h (x := '\t') (by decide)
  have h3 := identChar_avoid h (x := '\n') (by decide)
  have h4 := identChar_avoid h (x := '\r') (by decide)
  have h5 := identChar_avoid h (x := Char.ofNat 11) (by decide)
  have h6 := identChar_avoid h (x := Char.ofNat 12) (by decide)
  simp [h1, h2, h3, h4, h5, h6]

theorem identChar_goodHead {c : Char} (h : isIdentChar c = true) : goodHead c = true := by
  unfold goodHead
  rw [identChar_space h, identChar_flat h]
  rfl

theorem identChar_not_cut {c : Char} (h : isIdentChar c = true) :
    ([' ', '\t', '*', '&', '[', ']'].contains c) = false := by
  by_contra hcon
  rw [Bool.not_eq_false] at hcon
  have hm : c ∈ [' ', '\t', '*', '&', '[', ']'] := List.elem_iff.mp hcon
  fin_cases hm <;> exact absurd h (by decide)

theorem identOk_chars {s : String} (h : identOk s = true) :
    s.data ≠ [] ∧ ∀ c ∈ s.data, isIdentChar c = true := by
  unfold identOk at h
  rw [Bool.and_eq_true] at h
  obtain ⟨h1, h2⟩ := h
  constructor
  · intro hd
    rw [Bool.not_eq_true'] at h1
    have : s = "" := by
      cases s
      simp_all
    simp [this] at h1
  · intro c hc
    exact List.all_eq_true.mp h2 c hc

/-! ## Scanner-transparency lemmas -/

theorem flatChar_props {c : Char} (h : flatChar c = true) :
    ¬(c = '(') ∧ ¬(c = ')') ∧ ¬(c = ',') := by
  unfold flatChar at h
  rw [Bool.and_eq_true, Bool.and_eq_true] at h
  obtain ⟨⟨h1, h2⟩, h3⟩ := h
  rw [Bool.not_eq_true', decide_eq_false_iff_not] at h1 h2 h3
  exact ⟨h1, h2, h3⟩

theorem paramScan_cons_eq (c : Char) (xs : List Char) (d cm : Nat) :
    paramScan (c :: xs) d cm =
      if c = '(' then paramScan xs (d + 1) cm
      else if c = ')' then
        match d with
        | 0 => some (cm, xs)
        | d2 + 1 => paramScan xs d2 cm
      else if c = ',' then
        match d with
        | 0 => paramScan xs 0 (cm + 1)
        | d2 + 1 => paramScan xs (d2 + 1) cm
      else paramScan xs d cm := rfl

theorem paramScan_flat_cons {c : Char} (xs : List Char) (d cm : Nat)
    (h : flatChar c = true) :
    paramScan (c :: xs) d cm = paramScan xs d cm := by
  obtain ⟨h1, h2, h3⟩ := flatChar_props h
  rw [paramScan_cons_eq, if_neg h1, if_neg h2, if_neg h3]

theorem skips_nil : Skips [] := fun _ _ _ => rfl

theorem skips_append {a b : List Char} (ha : Skips a) (hb : Skips b) :
    Skips (a ++ b) := by
  intro d c r
  rw [List.append_assoc, ha, hb]

theorem skips_flat (l : List Char) (h : ∀ c ∈ l, flatChar c = true) : Skips l := by
  induction l with
  | nil => exact skips_nil
  | cons c t ih =>
    intro d cm r
    rw [List.cons_append, paramScan_flat_cons _ _ _ (h c (by simp))]
    exact ih (fun x hx => h x (by simp [hx])) d cm r

theorem skips_funcParens : Skips ("func(...)".data) := by
  intro d c r
  rfl

/-! ## Window lemmas for the close-paren-space search -/

theorem noCS_cons_cons (a b : Char) (t : List Char) :
    noCloseSpace (a :: b :: t) = (!(a = ')' && b = ' ') && noCloseSpace (b :: t)) := rfl

theorem noCS_flat (l : List Char) (h : ∀ c ∈ l, flatChar c = true) :
    noCloseSpace l = true := by
  induction l with
  | nil => rfl
  | cons a t ih =>
    cases t with
    | nil => rfl
    | cons b t2 =>
      rw [noCS_cons_cons, Bool.and_eq_true]
      refine ⟨?_, ih (fun c hc => h c (by simp [List.mem_cons.mp hc]))⟩
      have := (flatChar_props (h a (by simp))).2.1
      simp [this]

theorem noCS_append {a b : List Char} (ha : noCloseSpace a = true)
    (hb : noCloseSpace b = true)
    (hbd : ∀ x y, a.getLast? = some x → b.head? = some y → ¬(x = ')' ∧ y = ' ')) :
    noCloseSpace (a ++ b) = true := by
  induction a with
  | nil => simpa using hb
  | cons x t ih =>
    cases t with
    | nil =>
      cases b with
      | nil => rfl
      | cons y bt =>
        rw [List.singleton_append, noCS_cons_cons, Bool.and_eq_true]
        refine ⟨?_, hb⟩
        have hxy := hbd x y rfl rfl
        by_cases hx : x = ')'
        · by_cases hy : y = ' '
          · exact absurd ⟨hx, hy⟩ hxy
          · simp [hx, hy]
        · simp [hx]
    | cons x2 t2 =>
      rw [noCS_cons_cons] at ha
      rw [Bool.and_eq_true] at ha
      have hrec := ih ha.2 (fun u v hu hv => hbd u v (by rwa [List.getLast?_cons_cons]) hv)
      simp only [List.cons_append] at hrec ⊢
      rw [noCS_cons_cons, Bool.and_eq_true]
      exact ⟨ha.1, hrec⟩

/-! ## First-occurrence lemmas for the substring searches -/

theorem subIdx_cons_eq (a b : Char) (as bs : List Char) :
    subIdx (a :: as) (b :: bs) =
      if listStarts (a :: as) (b :: bs) then some 0
      else
        match subIdx as (b :: bs) with
        | some i => some (i + 1)
        | none => none := rfl

theorem subIdx_cons_not {a : Char} {as needle : List Char}
    (h : listStarts (a :: as) needle = false) :
    subIdx (a :: as) needle = (subIdx as needle).map (fun i => i + 1) := by
  cases needle with
  | nil => simp [listStarts] at h
  | cons b bs =>
    rw [subIdx_cons_eq, if_neg (by simp [h])]
    cases subIdx as (b :: bs) <;> rfl

theorem subIdx_single_append (pre rest : List Char) (c : Char)
    (h : ∀ x ∈ pre, ¬(x = c)) :
    subIdx (pre ++ rest) [c] = (subIdx rest [c]).map (fun i => i + pre.length) := by
  induction pre with
  | nil =>
    simp only [List.nil_append, List.length_nil]
    cases subIdx rest [c] <;> simp
  | cons a t ih =>
    rw [List.cons_append,
      subIdx_cons_not (by simp [listStarts, h a (by simp)]),
      ih (fun x hx => h x (by simp [hx]))]
    cases subIdx rest [c] <;> simp
    omega

theorem subIdx_closeSpace_append (pre rest : List Char)
    (hpre : noCloseSpace pre = true)
    (hbd : ∀ x y, pre.getLast? = some x → rest.head? = some y → ¬(x = ')' ∧ y = ' ')) :
    subIdx (pre ++ rest) [')', ' '] =
      (subIdx rest [')', ' ']).map (fun i => i + pre.length) := by
  induction pre with
  | nil =>
    simp only [List.nil_append, List.length_nil]
    cases subIdx rest [')', ' '] <;> simp
  | cons x t ih =>
    have hstep : listStarts (x :: (t ++ rest)) [')', ' '] = false := by
      cases t with
      | nil =>
        cases rest with
        | nil => simp [listStarts]
        | cons y rt =>
          have hxy := hbd x y rfl rfl
          by_cases hx : x = ')'
          · by_cases hy : y = ' '
            · exact absurd ⟨hx, hy⟩ hxy
            · simp [listStarts, hx, hy]
          · simp [listStarts, hx]
      | cons x2 t2 =>
        rw [noCS_cons_cons, Bool.and_eq_true] at hpre
        have := hpre.1
        by_cases hx : x = ')'
        · by_cases hx2 : x2 = ' '
          · rw [hx, hx2] at this
            simp at this
          · simp [listStarts, hx, hx2]
        · simp [listStarts, hx]
    have hpre' : noCloseSpace t = true := by
      cases t with
      | nil => rfl
      | cons x2 t2 =>
        rw [noCS_cons_cons, Bool.and_eq_true] at hpre
        exact hpre.2
    have hbd' : ∀ u v, t.getLast? = some u → rest.head? = some v →
        ¬(u = ')' ∧ v = ' ') := by
      intro u v hu hv
      cases t with
      | nil => simp at hu
      | cons x2 t2 => exact hbd u v (by rwa [List.getLast?_cons_cons]) hv
    rw [List.cons_append, subIdx_cons_not hstep, ih hpre' hbd']
    cases subIdx rest [')', ' '] <;> simp
    omega

/-! ## Trimming no-ops -/

theorem dropWhile_no_head {l : List Char} {p : Char → Bool}
    (h : ∀ c, l.head? = some c → p c = false) : l.dropWhile p = l := by
  cases l with
  | nil => rfl
  | cons a t =>
    rw [List.dropWhile_cons_of_neg]
    simp [h a rfl]

theorem trim_no_op (l : List Char) (p : Char → Bool)
    (hh : ∀ c, l.head? = some c → p c = false)
    (hl : ∀ c, l.getLast? = some c → p c = false) :
    trimChars l p = l := by
  unfold trimChars
  rw [dropWhile_no_head hh,
    dropWhile_no_head (fun c hc => hl c (by rwa [← List.head?_reverse])),
    List.reverse_reverse]

/-! ## Combinators for well-formed rendered fragments -/

theorem preOk_of_typeStrOk {s : String} (h : TypeStrOk s) : PreOk s :=
  ⟨h.skips, h.headOk, h.noCS⟩

theorem preOk_flat_str (s : String)
    (hflat : ∀ c ∈ s.data, flatChar c = true)
    (hhead : ∃ c t, s.data = c :: t ∧ goodHead c = true) : PreOk s :=
  ⟨skips_flat s.data hflat, hhead, noCS_flat s.data hflat⟩

theorem typeStrOk_flat_str (s : String)
    (hflat : ∀ c ∈ s.data, flatChar c = true)
    (hhead : ∃ c t, s.data = c :: t ∧ goodHead c = true)
    (hlast : ∃ c, s.data.getLast? = some c ∧ isGoSpace c = false) : TypeStrOk s :=
  ⟨skips_flat s.data hflat, hhead, hlast, noCS_flat s.data hflat⟩

/-- Appending onto a good head never creates a close-paren-space window at
the boundary, because good heads are not spaces. -/
theorem noCS_append_goodHead {a b : List Char}
    (ha : noCloseSpace a = true) (hb : noCloseSpace b = true)
    (hhb : ∃ c t, b = c :: t ∧ goodHead c = true) :
    noCloseSpace (a ++ b) = true := by
  obtain ⟨c, t, rfl, hc⟩ := hhb
  refine noCS_append ha hb ?_
  intro x y _ hy
  injection hy with hy
  subst hy
  intro hxy
  unfold goodHead isGoSpace at hc
  rw [hxy.2] at hc
  simp at hc

theorem preOk_append {a b : String} (ha : PreOk a) (hb : PreOk b) :
    PreOk (a ++ b) := by
  obtain ⟨c, t, hct, hc⟩ := ha.headOk
  refine ⟨?_, ?_, ?_⟩
  · rw [strData_append]
    exact skips_append ha.skips hb.skips
  · exact ⟨c, t ++ b.data, by rw [strData_append, hct]; rfl, hc⟩
  · rw [strData_append]
    exact noCS_append_goodHead ha.noCS hb.noCS hb.headOk

theorem typeStrOk_append {a b : String} (ha : PreOk a) (hb : TypeStrOk b) :
    TypeStrOk (a ++ b) := by
  obtain ⟨c, t, hct, hc⟩ := ha.headOk
  obtain ⟨cb, tb, hcb, _⟩ := hb.headOk
  refine ⟨?_, ?_, ?_, ?_⟩
  · rw [strData_append]
    exact skips_append ha.skips hb.skips
  · exact ⟨c, t ++ b.data, by rw [strData_append, hct]; rfl, hc⟩
  · obtain ⟨cl, hcl, hcl2⟩ := hb.lastOk
    refine ⟨cl, ?_, hcl2⟩
    rw [strData_append, List.getLast?_append, hcl]
    rfl
  · rw [strData_append]
    exact noCS_append_goodHead ha.noCS hb.noCS hb.headOk

theorem typeStrOk_append_flat {a b : String} (ha : TypeStrOk a)
    (hflat : ∀ c ∈ b.data, flatChar c = true)
    (hhead : ∃ c t, b.data = c :: t ∧ goodHead c = true)
    (hlast : ∃ c, b.data.getLast? = some c ∧ isGoSpace c = false) :
    TypeStrOk (a ++ b) :=
  typeStrOk_append (preOk_of_typeStrOk ha) (typeStrOk_flat_str b hflat hhead hlast)

/-- The rendered string of a well-formed identifier. -/
theorem identOk_typeStrOk {s : String} (h : identOk s = true) : TypeStrOk s := by
  obtain ⟨hne, hch⟩ := identOk_chars h
  refine typeStrOk_flat_str s (fun c hc => identChar_flat (hch c hc)) ?_ ?_
  · cases hd : s.data with
    | nil => exact absurd hd hne
    | cons c t =>
      exact ⟨c, t, rfl, identChar_goodHead (hch c (by rw [hd]; simp))⟩
  · have hex : s.data.getLast? = some (s.data.getLast hne) := List.getLast?_eq_getLast _ hne
    refine ⟨s.data.getLast hne, hex, ?_⟩
    exact identChar_space (hch _ (List.getLast_mem hne))

/-- TypeStrOk of every rendered well-formed type expression. -/
theorem render_ok (t : GoType) (h : typeWF t = true) :
    TypeStrOk (extractTypeString t) := by
  induction t with
  | ident n => exact identOk_typeStrOk h
  | star t ih =>
    exact typeStrOk_append (preOk_flat_str "*" (by decide) (by exact ⟨'*', [], rfl, by decide⟩))
      (ih h)
  | slice t ih =>
    exact typeStrOk_append (preOk_flat_str "[]" (by decide) (by exact ⟨'[', [']'], rfl, by decide⟩))
      (ih h)
  | array t ih =>
    exact typeStrOk_append
      (preOk_flat_str "[...]" (by decide) (by exact ⟨'[', ['.', '.', '.', ']'], rfl, by decide⟩))
      (ih h)
  | mapT k v ihk ihv =>
    unfold typeWF at h
    rw [Bool.and_eq_true] at h
    refine typeStrOk_append (a := "map[" ++ extractTypeString k ++ "]")
      ?_ (ihv h.2)
    refine preOk_append (a := "map[" ++ extractTypeString k) ?_
      (preOk_flat_str "]" (by decide) (by exact ⟨']', [], rfl, by decide⟩))
    exact preOk_append
      (preOk_flat_str "map[" (by decide) (by exact ⟨'m', ['a', 'p', '['], rfl, by decide⟩))
      (preOk_of_typeStrOk (ihk h.1))
  | chanSend t ih =>
    exact typeStrOk_append
      (preOk_flat_str "chan<- " (by decide)
        (by exact ⟨'c', ['h', 'a', 'n', '<', '-', ' '], rfl, by decide⟩))
      (ih h)
  | chanRecv t ih =>
    exact typeStrOk_append
      (preOk_flat_str "<-chan " (by decide)
        (by exact ⟨'<', ['-', 'c', 'h', 'a', 'n', ' '], rfl, by decide⟩))
      (ih h)
  | chanBoth t ih =>
    exact typeStrOk_append
      (preOk_flat_str "chan " (by decide)
        (by exact ⟨'c', ['h', 'a', 'n', ' '], rfl, by decide⟩))
      (ih h)
  | ifaceT =>
    exact typeStrOk_flat_str _ (by decide)
      (by exact ⟨'i', "nterface\x7b\x7d".data, rfl, by decide⟩)
      (by exact ⟨'\x7d', by decide, by decide⟩)
  | structT =>
    exact typeStrOk_flat_str _ (by decide)
      (by exact ⟨'s', "truct\x7b\x7d".data, rfl, by decide⟩)
      (by exact ⟨'\x7d', by decide, by decide⟩)
  | funcT =>
    refine ⟨skips_funcParens, ?_, ?_, ?_⟩
    · exact ⟨'f', "unc(...)".data, rfl, by decide⟩
    · exact ⟨')', by decide, by decide⟩
    · decide
  | sel x n ihx =>
    unfold typeWF at h
    rw [Bool.and_eq_true] at h
    refine typeStrOk_append (a := extractTypeString x ++ ".") ?_ (identOk_typeStrOk h.2)
    refine preOk_append (preOk_of_typeStrOk (ihx h.1))
      (preOk_flat_str "." (by decide) (by exact ⟨'.', [], rfl, by decide⟩))
  | unknownT =>
    exact typeStrOk_flat_str _ (by decide)
      (by exact ⟨'u', "nknown".data, rfl, by decide⟩)
      (by exact ⟨'n', by decide, by decide⟩)

/-! ## Fragment lemmas -/

theorem identOk_ne_empty {s : String} (h : identOk s = true) : s ≠ "" := by
  unfold identOk at h
  rw [Bool.and_eq_true] at h
  have := h.1
  rw [Bool.not_eq_true', decide_eq_false_iff_not] at this
  exact this

theorem identOk_space_preOk {s : String} (h : identOk s = true) : PreOk (s ++ " ") := by
  obtain ⟨hne, hch⟩ := identOk_chars h
  have hto := identOk_typeStrOk h
  refine ⟨?_, ?_, ?_⟩
  · rw [strData_append]
    exact skips_append hto.skips (skips_flat _ (by decide))
  · obtain ⟨c, t, hct, hc⟩ := hto.headOk
    exact ⟨c, t ++ [' '], by rw [strData_append, hct]; rfl, hc⟩
  · rw [strData_append]
    refine noCS_append hto.noCS (by decide) ?_
    intro x y hx hy
    have hxm : x ∈ s.data := by
      have := List.getLast?_eq_getLast s.data hne
      rw [this] at hx
      injection hx with hx
      rw [← hx]
      exact List.getLast_mem hne
    intro hxy
    exact identChar_avoid (hch x hxm) (x := ')') (by decide) hxy.1

/-- A name-prefixed fragment of the parameter or return list is a
well-formed rendered string. -/
theorem frag_ok (nm ty : String) (hn : pNameOk nm) (ht : TypeStrOk ty) :
    TypeStrOk ((if nm ≠ "" then nm ++ " " else "") ++ ty) := by
  rcases hn with rfl | hid
  · simp only [ne_eq, not_true_eq_false, if_false]
    exact ht
  · rw [if_pos (identOk_ne_empty hid)]
    exact typeStrOk_append (identOk_space_preOk hid) ht

theorem paramFrag_ok (p : ParameterInfo) (hn : pNameOk p.name)
    (ht : TypeStrOk p.type) : TypeStrOk (paramFrag p) :=
  frag_ok p.name p.type hn ht

theorem retFrag_ok (r : ReturnInfo) (hn : pNameOk r.name)
    (ht : TypeStrOk r.type) : TypeStrOk (retFrag r) :=
  frag_ok r.name r.type hn ht

/-- Scanning a comma-joined group of scanner-transparent items up to the
closing paren counts exactly the separators. -/
theorem paramScan_join (t : List String) :
    ∀ (x : String), (∀ s ∈ x :: t, Skips s.data) →
    ∀ (rest : List Char) (commas : Nat),
    paramScan ((joinComma (x :: t)).data ++ ')' :: rest) 0 commas =
      some (commas + t.length, rest) := by
  induction t with
  | nil =>
    intro x h rest commas
    show paramScan (x.data ++ ')' :: rest) 0 commas = some (commas + 0, rest)
    rw [h x (by simp)]
    rfl
  | cons y t2 ih =>
    intro x h rest commas
    have hj : joinComma (x :: y :: t2) = (x ++ ", ") ++ joinComma (y :: t2) := rfl
    rw [hj]
    simp only [strData_append, List.append_assoc]
    rw [h x (by simp)]
    show paramScan (',' :: ' ' :: ((joinComma (y :: t2)).data ++ ')' :: rest)) 0 commas = _
    have hcomma : ∀ (w : List Char) (cm : Nat),
        paramScan (',' :: ' ' :: w) 0 cm = paramScan w 0 (cm + 1) := fun _ _ => rfl
    rw [hcomma]
    rw [ih y (fun s hs => h s (by simp at hs ⊢; tauto)) rest (commas + 1)]
    simp [List.length_cons]
    omega

/-! ## Shape of the rendered signature clauses -/

theorem retClause_nil (fi : FunctionInfo) (h : fi.returns = []) :
    retClause fi = "" := by
  unfold retClause
  rw [h]

theorem retClause_single (fi : FunctionInfo) (r : ReturnInfo)
    (h : fi.returns = [r]) :
    (retClause fi).data = ' ' :: (retFrag r).data := by
  unfold retClause
  rw [h]
  simp [strData_append, joinComma]

theorem retClause_multi (fi : FunctionInfo) (r1 r2 : ReturnInfo)
    (rs : List ReturnInfo) (h : fi.returns = r1 :: r2 :: rs) :
    (retClause fi).data =
      ' ' :: '(' :: ((joinComma ((r1 :: r2 :: rs).map retFrag)).data ++ [')']) := by
  unfold retClause
  rw [h]
  have hl : (r1 :: r2 :: rs).length > 1 := by
    simp
  show ((" " ++ if (r1 :: r2 :: rs).length > 1 then "(" else "") ++
      joinComma (List.map retFrag (r1 :: r2 :: rs)) ++
      if (r1 :: r2 :: rs).length > 1 then ")" else "").data = _
  rw [if_pos hl, if_pos hl]
  simp [strData_append, List.append_assoc]

theorem recvClause_cases (fi : FunctionInfo) (h : FiSigWF fi) :
    recvClause fi = "" ∨
    ∃ pre : List Char,
      (recvClause fi).data = pre ++ [')', ' '] ∧
      noCloseSpace pre = true ∧
      (∃ t, pre = '(' :: t) := by
  unfold recvClause
  split
  · split
    · next r hr =>
      right
      obtain ⟨hn, ht⟩ := h.recvOk r hr
      have hfrag : TypeStrOk ((if r.name ≠ "" then r.name ++ " " else "") ++ r.type) :=
        frag_ok r.name r.type hn ht
      refine ⟨'(' :: ((if r.name ≠ "" then r.name ++ " " else "") ++ r.type).data,
        ?_, ?_, ⟨_, rfl⟩⟩
      · simp [strData_append, List.append_assoc]
      · refine noCS_append (a := ['(']) (by decide) hfrag.noCS ?_
        intro x y hx _ hxy
        injection hx with hx
        rw [← hx] at hxy
        exact absurd hxy.1 (by decide)
    · left
      rfl
  · left
    rfl

/-- Trimming is the identity on identifiers. -/
theorem identOk_trims {s : String} (h : identOk s = true) :
    goTrimSpace s = s ∧ goTrim s [' ', '\t', '*', '&', '[', ']'] = s := by
  obtain ⟨hne, hch⟩ := identOk_chars h
  have hhead : ∀ (p : Char → Bool), (∀ c ∈ s.data, p c = false) →
      ∀ c, s.data.head? = some c → p c = false := by
    intro p hp c hc
    cases hd : s.data with
    | nil => rw [hd] at hc; cases hc
    | cons a t =>
      rw [hd] at hc
      injection hc with hc
      rw [← hc]
      exact hp a (by rw [hd]; simp)
  have hlast : ∀ (p : Char → Bool), (∀ c ∈ s.data, p c = false) →
      ∀ c, s.data.getLast? = some c → p c = false := by
    intro p hp c hc
    rw [List.getLast?_eq_getLast s.data hne] at hc
    injection hc with hc
    rw [← hc]
    exact hp _ (List.getLast_mem hne)
  constructor
  · have hall : ∀ c ∈ s.data, isGoSpace c = false :=
      fun c hc => identChar_space (hch c hc)
    show (⟨trimChars s.data isGoSpace⟩ : String) = s
    rw [trim_no_op s.data isGoSpace (hhead _ hall) (hlast _ hall)]
  · have hall : ∀ c ∈ s.data, ([' ', '\t', '*', '&', '[', ']'].contains c) = false :=
      fun c hc => identChar_not_cut (hch c hc)
    show (⟨trimChars s.data _⟩ : String) = s
    rw [trim_no_op s.data _ (hhead _ hall) (hlast _ hall)]

/-! ## Assembling the round-trip -/

theorem getLast?_append_right {a b : List Char} {c : Char}
    (h : b.getLast? = some c) : (a ++ b).getLast? = some c := by
  rw [List.getLast?_append, h]
  rfl

theorem getLast?_cons_right {x : Char} {b : List Char} {c : Char}
    (h : b.getLast? = some c) : (x :: b).getLast? = some c := by
  rw [show x :: b = [x] ++ b from rfl]
  exact getLast?_append_right h

theorem listStarts_nil (l : List Char) : listStarts l [] = true := by
  cases l <;> rfl

theorem listStarts_append_self (a b : List Char) : listStarts (a ++ b) a = true := by
  induction a with
  | nil => exact listStarts_nil b
  | cons c t ih => simp [listStarts, ih]

theorem subIdx_starts_found {l needle : List Char}
    (h : listStarts l needle = true) : subIdx l needle = some 0 := by
  cases needle with
  | nil => cases l <;> rfl
  | cons b bs =>
    cases l with
    | nil => simp [listStarts] at h
    | cons a as => rw [subIdx_cons_eq, if_pos h]

theorem joinComma_head {x : String} (t : List String) {c : Char}
    {ct : List Char} (hx : x.data = c :: ct) :
    ∃ w, (joinComma (x :: t)).data = c :: w := by
  cases t with
  | nil => exact ⟨ct, hx⟩
  | cons y t2 =>
    refine ⟨ct ++ (", " ++ joinComma (y :: t2)).data, ?_⟩
    show ((x ++ ", ") ++ joinComma (y :: t2)).data = _
    simp [strData_append, hx]

/-- The normalized characters of a rendered signature. -/
theorem sig_data (fi : FunctionInfo) :
    (buildSignatureString fi).data =
      "func ".data ++ ((recvClause fi).data ++ tailData fi) := by
  unfold buildSignatureString tailData
  simp [strData_append, List.append_assoc]

/-- The facts about the post-receiver tail of a rendered signature. -/
theorem tail_facts (fi : FunctionInfo) (h : FiSigWF fi) :
    subIdx (tailData fi) ['('] = some fi.name.data.length ∧
    (tailData fi).take fi.name.data.length = fi.name.data ∧
    (∃ c t, tailData fi = c :: t ∧ isIdentChar c = true) ∧
    (∃ c, (tailData fi).getLast? = some c ∧ isGoSpace c = false) := by
  obtain ⟨hne, hch⟩ := identOk_chars h.nameOk
  refine ⟨?_, ?_, ?_, ?_⟩
  · unfold tailData
    rw [subIdx_single_append _ _ _
      (fun x hx => identChar_avoid (hch x hx) (x := '(') (by decide))]
    rw [subIdx_starts_found (by simp [listStarts, listStarts_nil])]
    simp
  · unfold tailData
    exact List.take_left _ _
  · unfold tailData
    cases hd : fi.name.data with
    | nil => exact absurd hd hne
    | cons c t =>
      refine ⟨c, t ++ '(' ::
        ((joinComma (fi.parameters.map paramFrag)).data ++ ')' :: (retClause fi).data),
        rfl, hch c (by rw [hd]; simp)⟩
  · unfold tailData
    rcases hr : fi.returns with _ | ⟨r1, rs⟩
    · have h0 : (retClause fi).data = [] := by
        rw [retClause_nil fi hr]
      rw [h0]
      refine ⟨')', ?_, by decide⟩
      apply getLast?_append_right
      apply getLast?_cons_right
      apply getLast?_append_right
      rfl
    · rcases hrs : rs with _ | ⟨r2, rs2⟩
      · rw [hrs] at hr
        obtain ⟨hn1, ht1⟩ := h.retsOk r1 (by rw [hr]; simp)
        obtain ⟨cl, hcl, hcls⟩ := (retFrag_ok r1 hn1 ht1).lastOk
        rw [retClause_single fi r1 hr]
        refine ⟨cl, ?_, hcls⟩
        apply getLast?_append_right
        apply getLast?_cons_right
        apply getLast?_append_right
        apply getLast?_cons_right
        apply getLast?_cons_right
        exact hcl
      · rw [hrs] at hr
        rw [retClause_multi fi r1 r2 rs2 hr]
        refine ⟨')', ?_, by decide⟩
        apply getLast?_append_right
        apply getLast?_cons_right
        apply getLast?_append_right
        apply getLast?_cons_right
        apply getLast?_cons_right
        apply getLast?_cons_right
        apply getLast?_append_right
        rfl

theorem opt_cond {o : Option Char} {c0 : Char} {p : Char → Bool}
    (h : o = some c0) (hp : p c0 = false) :
    ∀ c, o = some c → p c = false := by
  intro c hc
  rw [h] at hc
  injection hc with hc
  rw [← hc]
  exact hp

theorem goTrimSpace_id {s : String}
    (hh : ∀ c, s.data.head? = some c → isGoSpace c = false)
    (hl : ∀ c, s.data.getLast? = some c → isGoSpace c = false) :
    goTrimSpace s = s := by
  show (⟨trimChars s.data isGoSpace⟩ : String) = s
  rw [trim_no_op s.data isGoSpace hh hl]

/-- extractFunctionName recovers the name from a rendered signature. -/
theorem extract_on_sig (fi : FunctionInfo) (h : FiSigWF fi) :
    extractFunctionName (buildSignatureString fi) = fi.name := by
  obtain ⟨hsub, htake, ⟨ch, ct, hct, hch⟩, ⟨cl, hcl, hcls⟩⟩ := tail_facts fi h
  have hsd := sig_data fi
  have hsighead : (buildSignatureString fi).data.head? = some 'f' := by
    rw [hsd]
    rfl
  have hsiglast : (buildSignatureString fi).data.getLast? = some cl := by
    rw [hsd]
    exact getLast?_append_right (getLast?_append_right hcl)
  have hA : goTrimSpace (buildSignatureString fi) = buildSignatureString fi :=
    goTrimSpace_id (opt_cond hsighead (by decide)) (opt_cond hsiglast hcls)
  have hmark : (strStarts (buildSignatureString fi) "+" ||
      strStarts (buildSignatureString fi) "-" ||
      strStarts (buildSignatureString fi) " ") = false := by
    unfold strStarts
    rw [hsd]
    rfl
  have hfunc : strStarts (buildSignatureString fi) "func " = true := by
    unfold strStarts
    rw [hsd]
    exact listStarts_append_self _ _
  have hdrop : strDrop (buildSignatureString fi) 5 =
      ⟨(recvClause fi).data ++ tailData fi⟩ := by
    unfold strDrop
    rw [hsd]
    have hlen : ("func ".data).length = 5 := rfl
    rw [← hlen, List.drop_left]
  have hTtrim : goTrimSpace ⟨tailData fi⟩ = ⟨tailData fi⟩ :=
    goTrimSpace_id
      (opt_cond (show (tailData fi).head? = some ch by rw [hct]; rfl)
        (identChar_space hch))
      (opt_cond hcl hcls)
  have hfinal : nameBeforeParen ⟨tailData fi⟩ = fi.name := by
    unfold nameBeforeParen
    have hidx : strIdx ⟨tailData fi⟩ "(" = some fi.name.data.length := hsub
    rw [hidx]
    show goTrim (goTrimSpace (strTake ⟨tailData fi⟩ fi.name.data.length))
      [' ', '\t', '*', '&', '[', ']'] = fi.name
    have htk : strTake ⟨tailData fi⟩ fi.name.data.length = fi.name := by
      unfold strTake
      show (⟨(tailData fi).take fi.name.data.length⟩ : String) = fi.name
      rw [htake]
    rw [htk, (identOk_trims h.nameOk).1, (identOk_trims h.nameOk).2]
  have hM : stripMarker (buildSignatureString fi) = buildSignatureString fi := by
    unfold stripMarker
    rw [hmark]
    simp only [Bool.false_eq_true, if_false]
  unfold extractFunctionName
  rw [hA, hM, hfunc]
  simp only [Bool.not_true, Bool.false_eq_true, if_false]
  rw [hdrop]
  rcases recvClause_cases fi h with hR | ⟨pre, hRd, hpnoCS, ⟨t0, hpre⟩⟩
  · have hnil : (⟨(recvClause fi).data ++ tailData fi⟩ : String) = ⟨tailData fi⟩ := by
      rw [hR]
      show (⟨[] ++ tailData fi⟩ : String) = _
      rw [List.nil_append]
    rw [hnil, hTtrim]
    have hstrip : stripRecv ⟨tailData fi⟩ = ⟨tailData fi⟩ := by
      unfold stripRecv
      have hsS : strStarts ⟨tailData fi⟩ "(" = false := by
        unfold strStarts
        show listStarts (tailData fi) ['('] = false
        rw [hct]
        simp [listStarts, identChar_avoid hch (x := '(') (by decide)]
      rw [hsS]
      simp only [Bool.false_eq_true, if_false]
    rw [hstrip]
    exact hfinal
  · have hform : (recvClause fi).data ++ tailData fi =
        pre ++ (')' :: ' ' :: tailData fi) := by
      rw [hRd]
      simp [List.append_assoc]
    have hBhead : ((recvClause fi).data ++ tailData fi).head? = some '(' := by
      rw [hform, hpre]
      rfl
    have hBlast : ((recvClause fi).data ++ tailData fi).getLast? = some cl := by
      rw [hform]
      exact getLast?_append_right (getLast?_cons_right (getLast?_cons_right hcl))
    have hBtrim : goTrimSpace ⟨(recvClause fi).data ++ tailData fi⟩ =
        ⟨(recvClause fi).data ++ tailData fi⟩ :=
      goTrimSpace_id (opt_cond hBhead (by decide)) (opt_cond hBlast hcls)
    rw [hBtrim]
    have hstrip : stripRecv ⟨(recvClause fi).data ++ tailData fi⟩ = ⟨tailData fi⟩ := by
      unfold stripRecv
      have hsS : strStarts ⟨(recvClause fi).data ++ tailData fi⟩ "(" = true := by
        unfold strStarts
        show listStarts ((recvClause fi).data ++ tailData fi) ['('] = true
        rw [hform, hpre]
        simp [listStarts, listStarts_nil]
      rw [hsS]
      simp only [if_true]
      have hclose : strIdx ⟨(recvClause fi).data ++ tailData fi⟩ ") " =
          some pre.length := by
        unfold strIdx
        show subIdx ((recvClause fi).data ++ tailData fi) [')', ' '] = some pre.length
        rw [hform]
        rw [subIdx_closeSpace_append pre _ hpnoCS ?_]
        · rw [subIdx_starts_found (by simp [listStarts, listStarts_nil])]
          simp
        · intro x y _ hy hxy
          injection hy with hy
          rw [← hy] at hxy
          exact absurd hxy.2 (by decide)
      rw [hclose]
      show goTrimSpace
        (strDrop ⟨(recvClause fi).data ++ tailData fi⟩ (pre.length + 2)) =
          ⟨tailData fi⟩
      have hdrop2 : strDrop ⟨(recvClause fi).data ++ tailData fi⟩ (pre.length + 2) =
          ⟨tailData fi⟩ := by
        unfold strDrop
        show (⟨((recvClause fi).data ++ tailData fi).drop (pre.length + 2)⟩ : String) = _
        rw [hRd, List.append_assoc]
        rw [show pre.length + 2 = (pre ++ [')', ' ']).length by simp]
        rw [← List.append_assoc, List.drop_left]
      rw [hdrop2, hTtrim]
    rw [hstrip]
    exact hfinal

/-! ## The count half of the round-trip -/

theorem goodHead_facts {c : Char} (h : goodHead c = true) :
    ¬(c = '(') ∧ ¬(c = ')') ∧ isGoSpace c = false := by
  unfold goodHead flatChar at h
  simp only [Bool.and_eq_true, Bool.not_eq_true', decide_eq_false_iff_not] at h
  refine ⟨?_, ?_, ?_⟩ <;> tauto

/-- The receiver skip of the count extractor erases the rendered receiver
clause, for functions and for methods alike. -/
theorem recvSkip_sig (fi : FunctionInfo) (h : FiSigWF fi) :
    recvSkip ((recvClause fi).data ++ tailData fi) = tailData fi := by
  obtain ⟨_, _, ⟨ch, ct, hct, hch⟩, _⟩ := tail_facts fi h
  rcases recvClause_cases fi h with hR | ⟨pre, hRd, hpnoCS, ⟨t0, hpre⟩⟩
  · rw [hR]
    show recvSkip ([] ++ tailData fi) = _
    rw [List.nil_append]
    unfold recvSkip
    rw [if_neg ?hno]
    case hno =>
      rw [hct]
      intro heq
      injection heq with heq
      exact identChar_avoid hch (x := '(') (by decide) heq
  · have hform : (recvClause fi).data ++ tailData fi =
        pre ++ ')' :: ' ' :: tailData fi := by
      rw [hRd]
      simp [List.append_assoc]
    rw [hform]
    have hhead : (pre ++ ')' :: ' ' :: tailData fi).head? = some '(' := by
      rw [hpre]
      rfl
    have hclose : subIdx (pre ++ ')' :: ' ' :: tailData fi) [')', ' '] =
        some pre.length := by
      rw [subIdx_closeSpace_append pre _ hpnoCS ?_]
      · rw [subIdx_starts_found (by simp [listStarts, listStarts_nil])]
        simp
      · intro x y _ hy hxy
        injection hy with hy
        rw [← hy] at hxy
        exact absurd hxy.2 (by decide)
    unfold recvSkip
    rw [hhead, if_pos rfl, hclose]
    show (pre ++ ')' :: ' ' :: tailData fi).drop (pre.length + 2) = tailData fi
    rw [show pre ++ ')' :: ' ' :: tailData fi =
      (pre ++ [')', ' ']) ++ tailData fi by simp]
    rw [show pre.length + 2 = (pre ++ [')', ' ']).length by simp]
    exact List.drop_left _ _

theorem countsCore_eq2 (l : List Char) (p cm : Nat) (af : List Char) (rc : Nat)
    (hp : subIdx l ['('] = some p)
    (hs : paramScan (l.drop (p + 1)) 0 0 = some (cm, af))
    (hr : retCountOf af = some rc) :
    countsCore l = some (pcountOf (l.drop (p + 1)) cm, rc) := by
  unfold countsCore
  rw [hp]
  show (match paramScan (l.drop (p + 1)) 0 0 with
    | none => none
    | some (commas, after) =>
      match retCountOf after with
      | none => none
      | some rc2 => some (pcountOf (l.drop (p + 1)) commas, rc2)) = _
  rw [hs]
  show (match retCountOf af with
    | none => none
    | some rc2 => some (pcountOf (l.drop (p + 1)) cm, rc2)) = _
  rw [hr]

/-- The return clause of a rendered signature reads back as the length of
the return list. -/
theorem retCount_clause (fi : FunctionInfo) (h : FiSigWF fi) :
    retCountOf (retClause fi).data = some fi.returns.length := by
  rcases hr : fi.returns with _ | ⟨r1, rs⟩
  · rw [retClause_nil fi hr]
    rfl
  · rcases hrs : rs with _ | ⟨r2, rs2⟩
    · rw [hrs] at hr
      obtain ⟨hn1, ht1⟩ := h.retsOk r1 (by rw [hr]; simp)
      obtain ⟨c0, t0c, hc0, hgh⟩ := (retFrag_ok r1 hn1 ht1).headOk
      rw [retClause_single fi r1 hr]
      unfold retCountOf
      rw [if_neg (by simp : ¬((' ' :: (retFrag r1).data).isEmpty = true))]
      have hno : ¬((' ' :: (retFrag r1).data).head? = some ' ' ∧
          ((' ' :: (retFrag r1).data).drop 1).head? = some '(') := by
        intro hand
        have h2 := hand.2
        have hd1 : (' ' :: (retFrag r1).data).drop 1 = (retFrag r1).data := rfl
        rw [hd1, hc0] at h2
        injection h2 with h2
        exact (goodHead_facts hgh).1 h2
      rw [if_neg hno]
      rfl
    · rw [hrs] at hr
      rw [retClause_multi fi r1 r2 rs2 hr]
      have hskips2 : ∀ s ∈ retFrag r1 :: List.map retFrag (r2 :: rs2),
          Skips s.data := by
        intro s hs
        rw [show retFrag r1 :: List.map retFrag (r2 :: rs2) =
          List.map retFrag (r1 :: r2 :: rs2) from rfl] at hs
        obtain ⟨q, hq, rfl⟩ := List.mem_map.mp hs
        obtain ⟨hn, ht⟩ := h.retsOk q (by rw [hr]; exact hq)
        exact (retFrag_ok q hn ht).skips
      unfold retCountOf
      rw [if_neg (by simp :
        ¬((' ' :: '(' ::
          ((joinComma (List.map retFrag (r1 :: r2 :: rs2))).data ++ [')'])).isEmpty
          = true))]
      rw [if_pos ⟨rfl, rfl⟩]
      show (match paramScan
          ((joinComma (retFrag r1 :: List.map retFrag (r2 :: rs2))).data ++
            ')' :: ([] : List Char)) 0 0 with
        | none => none
        | some (c2, _) => some (c2 + 1)) = some (r1 :: r2 :: rs2).length
      rw [paramScan_join (List.map retFrag (r2 :: rs2)) (retFrag r1) hskips2 [] 0]
      simp

/-- The count extractor recovers the parameter and return counts from a
rendered signature. -/
theorem counts_on_sig (fi : FunctionInfo) (h : FiSigWF fi) :
    specSigCounts (buildSignatureString fi) =
      some (fi.parameters.length, fi.returns.length) := by
  have hsd := sig_data fi
  have hfunc : strStarts (buildSignatureString fi) "func " = true := by
    unfold strStarts
    rw [hsd]
    exact listStarts_append_self _ _
  have hdrop : (strDrop (buildSignatureString fi) 5).data =
      (recvClause fi).data ++ tailData fi := by
    show (buildSignatureString fi).data.drop 5 = _
    rw [hsd]
    have hlen : ("func ".data).length = 5 := rfl
    rw [← hlen, List.drop_left]
  obtain ⟨hsub, htake, ⟨ch, ct, hct, hch⟩, _⟩ := tail_facts fi h
  have hret := retCount_clause fi h
  have hdropName : (tailData fi).drop (fi.name.data.length + 1) =
      (joinComma (fi.parameters.map paramFrag)).data ++ ')' :: (retClause fi).data := by
    unfold tailData
    rw [show fi.name.data ++ '(' ::
        ((joinComma (fi.parameters.map paramFrag)).data ++
          ')' :: (retClause fi).data) =
      (fi.name.data ++ ['(']) ++
        ((joinComma (fi.parameters.map paramFrag)).data ++
          ')' :: (retClause fi).data) by simp]
    rw [show fi.name.data.length + 1 = (fi.name.data ++ ['(']).length by simp]
    exact List.drop_left _ _
  unfold specSigCounts
  rw [hfunc, if_pos rfl, hdrop, recvSkip_sig fi h]
  rcases hp : fi.parameters with _ | ⟨p1, ps⟩
  · have hscan : paramScan ((tailData fi).drop (fi.name.data.length + 1)) 0 0 =
        some (0, (retClause fi).data) := by
      rw [hdropName, hp]
      show paramScan (')' :: (retClause fi).data) 0 0 = _
      rfl
    have hpc : pcountOf ((tailData fi).drop (fi.name.data.length + 1)) 0 = 0 := by
      rw [hdropName, hp]
      show pcountOf (')' :: (retClause fi).data) 0 = 0
      rfl
    rw [countsCore_eq2 (tailData fi) fi.name.data.length 0 (retClause fi).data
      fi.returns.length hsub hscan hret, hpc]
    rfl
  · have hskips : ∀ s ∈ paramFrag p1 :: List.map paramFrag ps, Skips s.data := by
      intro s hs
      rw [show paramFrag p1 :: List.map paramFrag ps =
        List.map paramFrag (p1 :: ps) from rfl] at hs
      obtain ⟨q, hq, rfl⟩ := List.mem_map.mp hs
      obtain ⟨hn, ht⟩ := h.paramsOk q (by rw [hp]; exact hq)
      exact (paramFrag_ok q hn ht).skips
    have hscan : paramScan ((tailData fi).drop (fi.name.data.length + 1)) 0 0 =
        some (ps.length, (retClause fi).data) := by
      rw [hdropName, hp]
      show paramScan ((joinComma (paramFrag p1 :: List.map paramFrag ps)).data ++
        ')' :: (retClause fi).data) 0 0 = _
      rw [paramScan_join (List.map paramFrag ps) (paramFrag p1) hskips
        (retClause fi).data 0]
      simp
    obtain ⟨hn1, ht1⟩ := h.paramsOk p1 (by rw [hp]; simp)
    obtain ⟨c0, t0c, hc0, hgh⟩ := (paramFrag_ok p1 hn1 ht1).headOk
    have hpc : pcountOf ((tailData fi).drop (fi.name.data.length + 1)) ps.length =
        ps.length + 1 := by
      rw [hdropName, hp]
      obtain ⟨w, hw⟩ := joinComma_head (List.map paramFrag ps) hc0
      show pcountOf ((joinComma (paramFrag p1 :: List.map paramFrag ps)).data ++
        ')' :: (retClause fi).data) ps.length = ps.length + 1
      rw [hw]
      unfold pcountOf
      have hh : ((c0 :: w) ++ ')' :: (retClause fi).data).head? = some c0 := rfl
      rw [hh]
      rw [if_neg (fun heq => (goodHead_facts hgh).2.1 (by injection heq))]
    rw [countsCore_eq2 (tailData fi) fi.name.data.length ps.length
      (retClause fi).data fi.returns.length hsub hscan hret, hpc]
    simp

/-! ## The analyzer produces well-formed descriptors -/

theorem afd_name (d : GoFuncDecl) (fp : String) :
    (analyzeFunctionDecl d fp).name = d.name := by
  unfold analyzeFunctionDecl
  cases d.body <;> rfl

theorem afd_params (d : GoFuncDecl) (fp : String) :
    (analyzeFunctionDecl d fp).parameters =
      (match d.params with
       | none => []
       | some fs =>
         (fieldEntries fs).map (fun e => (⟨e.1, e.2⟩ : ParameterInfo))) := by
  unfold analyzeFunctionDecl
  cases d.body <;> cases d.params <;> rfl

theorem afd_returns (d : GoFuncDecl) (fp : String) :
    (analyzeFunctionDecl d fp).returns =
      (match d.results with
       | none => []
       | some fs =>
         (fieldEntries fs).map (fun e => (⟨e.1, e.2⟩ : ReturnInfo))) := by
  unfold analyzeFunctionDecl
  cases d.body <;> cases d.results <;> rfl

theorem afd_recv (d : GoFuncDecl) (fp : String) :
    (analyzeFunctionDecl d fp).receiver =
      (match d.recv with
       | some (r :: _) =>
         some (⟨(match r.names with | n :: _ => n | [] => ""),
           extractTypeString r.type⟩ : ReceiverInfo)
       | _ => none) := by
  unfold analyzeFunctionDecl
  cases d.body <;> rcases d.recv with _ | (_ | ⟨r, t⟩) <;> rfl

/-- buildSignatureString reads only the name, parameter, return, method
and receiver fields. -/
theorem buildSig_congr (a b : FunctionInfo)
    (hn : a.name = b.name) (hp : a.parameters = b.parameters)
    (hr : a.returns = b.returns) (hm : a.isMethod = b.isMethod)
    (hv : a.receiver = b.receiver) :
    buildSignatureString a = buildSignatureString b := by
  unfold buildSignatureString recvClause retClause
  rw [hn, hp, hr, hm, hv]

/-- The stored signature of a descriptor is the render of the descriptor
itself. -/
theorem afd_sig (d : GoFuncDecl) (fp : String) :
    (analyzeFunctionDecl d fp).signature =
      buildSignatureString (analyzeFunctionDecl d fp) := by
  unfold analyzeFunctionDecl
  cases d.body <;> exact buildSig_congr _ _ rfl rfl rfl rfl rfl

theorem fieldEntries_aux (fields : List GoField) (acc : List (String × String))
    (h : ∀ f ∈ fields, fieldWF f = true)
    (hacc : ∀ e ∈ acc, pNameOk e.1 ∧ TypeStrOk e.2) :
    ∀ e ∈ fields.foldl
      (fun acc fld =>
        match fld.names with
        | [] => acc ++ [("", extractTypeString fld.type)]
        | ns => acc ++ ns.map (fun n => (n, extractTypeString fld.type)))
      acc,
      pNameOk e.1 ∧ TypeStrOk e.2 := by
  induction fields generalizing acc with
  | nil =>
    intro e he
    exact hacc e he
  | cons f t ih =>
    intro e he
    rw [List.foldl_cons] at he
    refine ih _ (fun f2 hf2 => h f2 (List.mem_cons_of_mem _ hf2)) ?_ e he
    intro q hq
    have hf := h f (List.mem_cons_self _ _)
    unfold fieldWF at hf
    rw [Bool.and_eq_true] at hf
    obtain ⟨hnames, htype⟩ := hf
    cases hn : f.names with
    | nil =>
      rw [hn] at hq
      rcases List.mem_append.mp hq with hq1 | hq2
      · exact hacc q hq1
      · have hqe : q = ("", extractTypeString f.type) := by
          simpa using hq2
        rw [hqe]
        exact ⟨Or.inl rfl, render_ok f.type htype⟩
    | cons n ns =>
      rw [hn] at hq
      rcases List.mem_append.mp hq with hq1 | hq2
      · exact hacc q hq1
      · obtain ⟨nm, hnm, rfl⟩ := List.mem_map.mp hq2
        rw [hn] at hnames
        exact ⟨Or.inr (List.all_eq_true.mp hnames nm hnm),
          render_ok f.type htype⟩

/-- Every entry flattened from well-formed fields has a well-formed name
and a well-formed rendered type. -/
theorem fieldEntries_mem (fields : List GoField)
    (h : ∀ f ∈ fields, fieldWF f = true) :
    ∀ e ∈ fieldEntries fields, pNameOk e.1 ∧ TypeStrOk e.2 := by
  intro e he
  unfold fieldEntries at he
  exact fieldEntries_aux fields [] h
    (fun q hq => absurd hq (List.not_mem_nil q)) e he

/-- A descriptor produced from a well-formed declaration satisfies the
syntactic facts the round-trip needs. -/
theorem afd_wf (d : GoFuncDecl) (fp : String) (hd : declWF d = true) :
    FiSigWF (analyzeFunctionDecl d fp) := by
  unfold declWF at hd
  simp only [Bool.and_eq_true] at hd
  obtain ⟨⟨⟨hn, hrecv⟩, hparams⟩, hresults⟩ := hd
  refine ⟨?_, ?_, ?_, ?_⟩
  · rw [afd_name]
    exact hn
  · intro p hp
    rw [afd_params] at hp
    cases hps : d.params with
    | none =>
      rw [hps] at hp
      exact absurd hp (List.not_mem_nil p)
    | some fs =>
      rw [hps] at hp
      have hp2 : p ∈ (fieldEntries fs).map
          (fun e => (⟨e.1, e.2⟩ : ParameterInfo)) := hp
      obtain ⟨e, he, rfl⟩ := List.mem_map.mp hp2
      rw [hps] at hparams
      exact fieldEntries_mem fs (List.all_eq_true.mp hparams) e he
  · intro r hr
    rw [afd_returns] at hr
    cases hrs : d.results with
    | none =>
      rw [hrs] at hr
      exact absurd hr (List.not_mem_nil r)
    | some fs =>
      rw [hrs] at hr
      have hr2 : r ∈ (fieldEntries fs).map
          (fun e => (⟨e.1, e.2⟩ : ReturnInfo)) := hr
      obtain ⟨e, he, rfl⟩ := List.mem_map.mp hr2
      rw [hrs] at hresults
      exact fieldEntries_mem fs (List.all_eq_true.mp hresults) e he
  · intro r hr
    rw [afd_recv] at hr
    rcases hrc : d.recv with _ | (_ | ⟨f, t⟩)
    · rw [hrc] at hr
      exact Option.noConfusion hr
    · rw [hrc] at hr
      exact Option.noConfusion hr
    · rw [hrc] at hr
      have hr2 : some (⟨(match f.names with | n :: _ => n | [] => ""),
          extractTypeString f.type⟩ : ReceiverInfo) = some r := hr
      injection hr2 with hr3
      rw [← hr3]
      rw [hrc] at hrecv
      have hf : fieldWF f = true :=
        List.all_eq_true.mp hrecv f (List.mem_cons_self _ _)
      unfold fieldWF at hf
      rw [Bool.and_eq_true] at hf
      refine ⟨?_, render_ok f.type hf.2⟩
      have hf1 := hf.1
      cases hfn : f.names with
      | nil => exact Or.inl rfl
      | cons n ns =>
        rw [hfn] at hf1
        exact Or.inr (List.all_eq_true.mp hf1 n (List.mem_cons_self _ _))

/-- C9: for every well-formed declaration consumed by the Syntax Analyzer
(identifier function name, identifier bound names, types from the go/ast
grammar), rendering the produced descriptor's signature with
buildSignatureString and re-extracting the function name from that string
with the diff parser's extractFunctionName yields the descriptor's Name —
for plain functions and for methods, whose rendered receiver clause is
stripped — and the parameter and return counts re-extracted from the
rendered signature equal the lengths of the descriptor's parameter and
return lists. -/
theorem C9_round_trip (d : GoFuncDecl) (fp : String) (hd : declWF d = true) :
    extractFunctionName (analyzeFunctionDecl d fp).signature =
      (analyzeFunctionDecl d fp).name ∧
    specSigCounts (analyzeFunctionDecl d fp).signature =
      some ((analyzeFunctionDecl d fp).parameters.length,
        (analyzeFunctionDecl d fp).returns.length) := by
  have hwf := afd_wf d fp hd
  rw [afd_sig]
  exact ⟨extract_on_sig _ hwf, counts_on_sig _ hwf⟩

/-- Witness for C9 at the Scenario D method declaration. -/
theorem C9_round_trip_w :
    declWF scenarioDDecl = true ∧
    (extractFunctionName (analyzeFunctionDecl scenarioDDecl "user.go").signature =
        (analyzeFunctionDecl scenarioDDecl "user.go").name ∧
      specSigCounts (analyzeFunctionDecl scenarioDDecl "user.go").signature =
        some ((analyzeFunctionDecl scenarioDDecl "user.go").parameters.length,
          (analyzeFunctionDecl scenarioDDecl "user.go").returns.length)) :=
  ⟨by decide, C9_round_trip scenarioDDecl "user.go" (by decide)⟩

/-- Witness for C10 at a two-element diff and a mixed path list. -/
theorem C10_go_file_filtering_w :
    (⟨"u.md", "u.md", [], []⟩ ∈
        (FilterGoFiles ⟨[⟨"u.go", "u.go", [], []⟩, ⟨"u.md", "u.md", [], []⟩]⟩).files ↔
      (⟨"u.md", "u.md", [], []⟩ : FileDiff) ∈
          [⟨"u.go", "u.go", [], []⟩, ⟨"u.md", "u.md", [], []⟩] ∧
        goFileName "u.md" = true) ∧
    AnalyzeSpecificFunctions (fun _ => none) ["a.md", "b_test.go"] [] =
      AnalyzeSpecificFunctions (fun _ => none)
        (["a.md", "b_test.go"].filter goFileName) [] :=
  ⟨C10_go_file_filtering.1 ⟨[⟨"u.go", "u.go", [], []⟩, ⟨"u.md", "u.md", [], []⟩]⟩
      ⟨"u.md", "u.md", [], []⟩,
   C10_go_file_filtering.2.2 (fun _ => none) ["a.md", "b_test.go"] []⟩

end Testgen
